import Mathlib

/-!
Verification development for the `fastapi_poe` Poe bot protocol runtime.

The definitions below are a shallow embedding of the Python sources:
  * `src/fastapi_poe/base.py`  — server dispatcher (`PoeBot.handle_query`),
    attachment pre-processing, role alternation, cost requests, SSE event
    constructors;
  * `src/fastapi_poe/client.py` — client SSE state machine
    (`_BotContext.perform_query_request`), `get_final_response`, and the
    streaming tool-call aggregation loop of `_stream_request_with_tools`;
  * `src/fastapi_poe/types.py`  — the protocol value types.

Modelling conventions:
  * JSON wire payloads are modelled post-parse (the JSON codec itself is
    external I/O).  Payload values are modelled one level deep
    (`JVal` primitives inside an object/array document `JDoc`): the code
    only ever interprets top-level fields of an event's payload, and those
    fields are primitives; deeper structure is passed through opaquely.
  * Python `None`-able values become `Option`; Python truthiness of a
    string (`if not s`) is tested as emptiness of the string.
  * Code that raises becomes `Except`/explicit outcome values; an
    exception object is represented by its `repr` string.
-/

namespace FastapiPoe

/-- A JSON primitive value (`null`, booleans, numbers, strings). -/
inductive JVal where
  | null : JVal
  | bool (b : Bool) : JVal
  | num (n : Int) : JVal
  | str (s : String) : JVal
  deriving DecidableEq, Repr

/-- A JSON document, one level deep: a primitive, an array of primitives,
or an object whose fields are primitives. -/
inductive JDoc where
  | val (v : JVal) : JDoc
  | arr (xs : List JVal) : JDoc
  | obj (fields : List (String × JVal)) : JDoc
  deriving DecidableEq, Repr

/-- Dictionary lookup on a JSON object's field list (`d[k]` / `d.get(k)`). -/
def lookupJ (fields : List (String × JVal)) (k : String) : Option JVal :=
  (fields.find? (fun p => p.1 == k)).map (·.2)

/-- `d.get(k, default)`. -/
def getJD (fields : List (String × JVal)) (k : String) (dflt : JVal) : JVal :=
  (lookupJ fields k).getD dflt

/-- Python truthiness of a (primitive) JSON value. -/
def truthyJ : JVal → Bool
  | .null => false
  | .bool b => b
  | .num n => n != 0
  | .str s => s != ""

/-- `sse_starlette.ServerSentEvent`: an event name plus a JSON data payload
(the payload is modelled post-`json.dumps`/`json.loads`). -/
structure ServerSentEvent where
  event : String
  data : JDoc
  deriving DecidableEq, Repr

namespace PoeBot

/-- `PoeBot.text_event`. -/
def text_event (text : String) : ServerSentEvent :=
  ⟨"text", .obj [("text", .str text)]⟩

/-- `PoeBot.file_event`. -/
def file_event (url content_type name : String) (inline_ref : Option String) :
    ServerSentEvent :=
  ⟨"file", .obj [("url", .str url), ("content_type", .str content_type),
                 ("name", .str name),
                 ("inline_ref", match inline_ref with
                                | some r => .str r
                                | none => .null)]⟩

/-- `PoeBot.data_event`. -/
def data_event (metadata : String) : ServerSentEvent :=
  ⟨"data", .obj [("metadata", .str metadata)]⟩

/-- `PoeBot.replace_response_event`. -/
def replace_response_event (text : String) : ServerSentEvent :=
  ⟨"replace_response", .obj [("text", .str text)]⟩

/-- `PoeBot.done_event` (`data="{}"`). -/
def done_event : ServerSentEvent :=
  ⟨"done", .obj []⟩

/-- `PoeBot.suggested_reply_event`. -/
def suggested_reply_event (text : String) : ServerSentEvent :=
  ⟨"suggested_reply", .obj [("text", .str text)]⟩

/-- `PoeBot.meta_event`. -/
def meta_event (content_type : String) (refetch_settings linkify
    suggested_replies : Bool) : ServerSentEvent :=
  ⟨"meta", .obj [("content_type", .str content_type),
                 ("refetch_settings", .bool refetch_settings),
                 ("linkify", .bool linkify),
                 ("suggested_replies", .bool suggested_replies)]⟩

/-- `PoeBot.error_event`: the data dict holds `allow_retry` and then the
optional `text`, `raw_response` (as `repr`), `error_type` fields, in the
insertion order of the source. -/
def error_event (text : Option String) (raw_response : Option String)
    (allow_retry : Bool) (error_type : Option String) : ServerSentEvent :=
  ⟨"error",
   .obj ([("allow_retry", .bool allow_retry)]
         ++ (match text with | some t => [("text", JVal.str t)] | none => [])
         ++ (match raw_response with
             | some r => [("raw_response", JVal.str r)] | none => [])
         ++ (match error_type with
             | some e => [("error_type", JVal.str e)] | none => []))⟩

end PoeBot

/-- The element types a handler's `get_response_with_context` generator can
yield, as discriminated by the `isinstance`/flag chain of
`PoeBot.handle_query` (base.py lines 852-875): a raw `ServerSentEvent`,
an `ErrorResponse`, a `MetaResponse`, a `DataResponse`, or a plain
`PartialResponse` (whose `is_suggested_reply` / `is_replace_response`
flags are then inspected, in that order). -/
inductive HandlerEvent where
  | sse (ev : ServerSentEvent) : HandlerEvent
  | errorResp (text : String) (raw_response : Option String)
      (allow_retry : Bool) (error_type : Option String) : HandlerEvent
  | metaResp (content_type : String) (refetch_settings linkify
      suggested_replies : Bool) : HandlerEvent
  | dataResp (metadata : String) : HandlerEvent
  | partialResp (text : String) (is_suggested_reply is_replace_response :
      Bool) : HandlerEvent
  deriving DecidableEq, Repr

/-- Translation of one handler element into the SSE event emitted for it,
mirroring the `if`/`elif` chain in `PoeBot.handle_query`. -/
def translateEvent : HandlerEvent → ServerSentEvent
  | .sse ev => ev
  | .errorResp t raw ar et => PoeBot.error_event (some t) raw ar et
  | .metaResp ct rf l sr => PoeBot.meta_event ct rf l sr
  | .dataResp m => PoeBot.data_event m
  | .partialResp t sugg repl =>
      if sugg then PoeBot.suggested_reply_event t
      else if repl then PoeBot.replace_response_event t
      else PoeBot.text_event t

/-- One observable step of a handler's execution, as seen by the
dispatcher: enqueue a pending `file` event for a message id (the queue
side effect of `PoeBot.post_message_attachment`, which appends
`file_event(url, content_type, name, inline_ref)` to
`_file_events_to_yield[message_id]`), yield a response element, or raise
an exception (represented by its `repr`).  Steps after a raise never
execute. -/
inductive HandlerAction where
  | enqueueFile (message_id url content_type name : String)
      (inline_ref : Option String) : HandlerAction
  | yieldElem (e : HandlerEvent) : HandlerAction
  | raiseExc (excRepr : String) : HandlerAction
  deriving DecidableEq, Repr

/-- `PoeBot._file_events_to_yield`: a dict from message id to the FIFO list
of pending file events, modelled as an association list. -/
abbrev PendingMap := List (String × List ServerSentEvent)

/-- `self._file_events_to_yield.pop(message_id, [])`, the value part:
the pending events for `k` (empty if absent). -/
def pendingPop (d : PendingMap) (k : String) : List ServerSentEvent :=
  ((d.find? (fun p => p.1 == k)).map (·.2)).getD []

/-- `self._file_events_to_yield.pop(message_id, [])`, the removal part. -/
def pendingRemove (d : PendingMap) (k : String) : PendingMap :=
  d.filter (fun p => p.1 != k)

/-- `self._file_events_to_yield.setdefault(message_id, []).append(fe)`. -/
def pendingAppend (d : PendingMap) (k : String) (fe : ServerSentEvent) :
    PendingMap :=
  if d.any (fun p => p.1 == k) then
    d.map (fun p => if p.1 == k then (p.1, p.2 ++ [fe]) else p)
  else
    d ++ [(k, [fe])]

/-- The `async for` loop body of `PoeBot.handle_query` (base.py lines
845-880), processing the handler's execution trace: returns the SSE events
emitted inside the `try` block, the final pending-event map, and the repr
of the exception if the handler raised.  Before each yielded element the
pending file events for the request's `message_id` are popped and emitted
(`_yield_pending_file_events`). -/
def runHandler (message_id : String) (d : PendingMap) :
    List HandlerAction → List ServerSentEvent × PendingMap × Option String
  | [] => ([], d, none)
  | .enqueueFile k u c n r :: rest =>
      runHandler message_id (pendingAppend d k (PoeBot.file_event u c n r)) rest
  | .yieldElem e :: rest =>
      let res := runHandler message_id (pendingRemove d message_id) rest
      (pendingPop d message_id ++ translateEvent e :: res.1, res.2)
  | .raiseExc r :: _ => ([], d, some r)

/-- `PoeBot.handle_query` (base.py lines 829-888) as a function from the
handler's execution trace to the emitted SSE event sequence: run the
loop; if it completed, drain the remaining pending file events; if the
handler raised, emit the single non-retriable error event; always finish
with `done_event`. -/
def handle_query (message_id : String) (trace : List HandlerAction) :
    List ServerSentEvent :=
  match runHandler message_id [] trace with
  | (evs, d, none) => evs ++ pendingPop d message_id ++ [PoeBot.done_event]
  | (evs, _, some r) =>
      evs ++ [PoeBot.error_event (some "The bot encountered an unexpected issue.")
                (some r) false none,
              PoeBot.done_event]

example :
    handle_query "m"
      [.enqueueFile "m" "u1" "image/png" "a.png" (some "ab32ef21"),
       .yieldElem (.partialResp "hi" false false),
       .enqueueFile "m" "u2" "text/plain" "b.txt" none,
       .yieldElem (.dataResp "x")] =
      [PoeBot.file_event "u1" "image/png" "a.png" (some "ab32ef21"),
       PoeBot.text_event "hi",
       PoeBot.file_event "u2" "text/plain" "b.txt" none,
       PoeBot.data_event "x",
       PoeBot.done_event] := by decide

example :
    handle_query "m"
      [.yieldElem (.partialResp "hi" false false),
       .raiseExc "ValueError: boom",
       .yieldElem (.partialResp "never" false false)] =
      [PoeBot.text_event "hi",
       PoeBot.error_event (some "The bot encountered an unexpected issue.")
         (some "ValueError: boom") false none,
       PoeBot.done_event] := by decide

example :
    handle_query "m" [.enqueueFile "other" "u" "t" "n" none] =
      [PoeBot.done_event] := by decide

/-- The upload parameters determining the file event queued by one
`post_message_attachment` call. -/
structure FileSpec where
  url : String
  content_type : String
  name : String
  inline_ref : Option String
  deriving DecidableEq, Repr

/-- The `file` SSE event queued for a `FileSpec`. -/
def fileEventOf (f : FileSpec) : ServerSentEvent :=
  PoeBot.file_event f.url f.content_type f.name f.inline_ref

/-- The handler step performing the queue side effect of
`post_message_attachment` for a `FileSpec`. -/
def enqueueOf (message_id : String) (f : FileSpec) : HandlerAction :=
  .enqueueFile message_id f.url f.content_type f.name f.inline_ref

theorem runHandler_append_enqueues (mid : String) (files : List FileSpec)
    (d : PendingMap) (tail : List HandlerAction) :
    runHandler mid d (files.map (enqueueOf mid) ++ tail)
      = runHandler mid
          (files.foldl (fun dd f => pendingAppend dd mid (fileEventOf f)) d)
          tail := by
  induction files generalizing d with
  | nil => rfl
  | cons f fs ih => simpa [enqueueOf, runHandler, fileEventOf] using ih _

theorem pending_fold_single (mid : String) (files : List FileSpec)
    (evs : List ServerSentEvent) :
    files.foldl (fun dd f => pendingAppend dd mid (fileEventOf f)) [(mid, evs)]
      = [(mid, evs ++ files.map fileEventOf)] := by
  induction files generalizing evs with
  | nil => simp
  | cons f fs ih =>
      rw [List.foldl_cons]
      have hstep : pendingAppend [(mid, evs)] mid (fileEventOf f)
          = [(mid, evs ++ [fileEventOf f])] := by
        simp [pendingAppend]
      rw [hstep, ih]
      simp

theorem pendingPop_single (mid : String) (evs : List ServerSentEvent) :
    pendingPop [(mid, evs)] mid = evs := by
  simp [pendingPop, List.find?]

theorem pendingRemove_single (mid : String) (evs : List ServerSentEvent) :
    pendingRemove [(mid, evs)] mid = [] := by
  simp [pendingRemove, List.filter]

theorem pending_fold_pop (mid : String) (files : List FileSpec) :
    pendingPop (files.foldl (fun dd f => pendingAppend dd mid (fileEventOf f)) []) mid
        = files.map fileEventOf
      ∧ pendingRemove
          (files.foldl (fun dd f => pendingAppend dd mid (fileEventOf f)) []) mid
        = [] := by
  cases files with
  | nil => exact ⟨rfl, rfl⟩
  | cons f fs =>
      have h0 : pendingAppend ([] : PendingMap) mid (fileEventOf f)
          = [(mid, [fileEventOf f])] := rfl
      rw [List.foldl_cons, h0, pending_fold_single]
      exact ⟨pendingPop_single _ _, pendingRemove_single _ _⟩

/-- C1: in `handle_query`, all file events queued by
`post_message_attachment` for the request's message id since the previous
yield are emitted, in FIFO order, immediately before the next element the
handler yields; and file events still pending when the handler completes
are emitted after the last element, before `done`. -/
theorem file_events_precede_next_element (mid : String) (files : List FileSpec)
    (e : HandlerEvent) (rest : List HandlerAction) :
    handle_query mid (files.map (enqueueOf mid) ++ .yieldElem e :: rest)
        = files.map fileEventOf ++ translateEvent e :: handle_query mid rest
      ∧ handle_query mid (files.map (enqueueOf mid))
        = files.map fileEventOf ++ [PoeBot.done_event] := by
  obtain ⟨hpop, hrem⟩ := pending_fold_pop mid files
  constructor
  · unfold handle_query
    rw [runHandler_append_enqueues]
    show (match
        (pendingPop _ mid ++ translateEvent e ::
          (runHandler mid (pendingRemove _ mid) rest).1,
         (runHandler mid (pendingRemove _ mid) rest).2) with
      | (evs, d, none) => evs ++ pendingPop d mid ++ [PoeBot.done_event]
      | (evs, _, some r) => _) = _
    rw [hpop, hrem]
    rcases hr : runHandler mid [] rest with ⟨evs, d', exc⟩
    cases exc <;> simp [hr]
  · unfold handle_query
    have := runHandler_append_enqueues mid files [] []
    rw [List.append_nil] at this
    rw [this]
    show (pendingPop _ mid ++ [PoeBot.done_event]) = _
    rw [hpop]

theorem runHandler_no_raise_append (mid : String) (d : PendingMap)
    (pre post : List HandlerAction) (r : String)
    (h : ∀ s, HandlerAction.raiseExc s ∉ pre) :
    runHandler mid d (pre ++ .raiseExc r :: post)
      = ((runHandler mid d pre).1, (runHandler mid d pre).2.1, some r) := by
  induction pre generalizing d with
  | nil => rfl
  | cons a rest ih =>
      have hrest : ∀ s, HandlerAction.raiseExc s ∉ rest := by
        intro s hs
        exact h s (List.mem_cons_of_mem _ hs)
      cases a with
      | enqueueFile k u c n rr => simpa [runHandler] using ih _ hrest
      | yieldElem e => simp [runHandler, ih _ hrest]
      | raiseExc s => exact absurd (List.mem_cons_self _ _) (fun hh => h s hh)

/-- C5: if the handler raises (after a raise-free prefix of its
execution), `handle_query` emits the events of the prefix, then exactly
the single error event (`allow_retry=false`, `raw_response` the `repr` of
the exception, text "The bot encountered an unexpected issue."), then
`done`; nothing that would follow the raise is emitted. -/
theorem handler_exception_single_error_then_done (mid : String)
    (pre post : List HandlerAction) (r : String)
    (h : ∀ s, HandlerAction.raiseExc s ∉ pre) :
    handle_query mid (pre ++ .raiseExc r :: post)
      = (runHandler mid [] pre).1
        ++ [PoeBot.error_event (some "The bot encountered an unexpected issue.")
              (some r) false none,
            PoeBot.done_event] := by
  unfold handle_query
  rw [runHandler_no_raise_append mid [] pre post r h]

/-- Witness for `handler_exception_single_error_then_done` at a concrete
trace. -/
theorem handler_exception_single_error_then_done_witness :
    (∀ s, HandlerAction.raiseExc s ∉
        ([.yieldElem (.partialResp "hi" false false)] : List HandlerAction))
    ∧ handle_query "m"
        ([.yieldElem (.partialResp "hi" false false)]
          ++ .raiseExc "ValueError: boom" :: [.yieldElem (.dataResp "z")])
      = (runHandler "m" [] [.yieldElem (.partialResp "hi" false false)]).1
        ++ [PoeBot.error_event (some "The bot encountered an unexpected issue.")
              (some "ValueError: boom") false none,
            PoeBot.done_event] :=
  ⟨fun s => by simp,
   handler_exception_single_error_then_done "m" _ _ "ValueError: boom"
     (fun s => by simp)⟩

/-- All event lists stored in a pending map are `file` events (true of
`_file_events_to_yield`, which only `post_message_attachment` fills). -/
def pendingAllFiles (d : PendingMap) : Prop :=
  ∀ p ∈ d, ∀ ev ∈ p.2, ServerSentEvent.event ev = "file"

theorem pendingAllFiles_append (d : PendingMap) (k : String)
    (fe : ServerSentEvent) (hd : pendingAllFiles d) (hfe : fe.event = "file") :
    pendingAllFiles (pendingAppend d k fe) := by
  unfold pendingAppend
  split
  · intro p hp ev hev
    rcases List.mem_map.mp hp with ⟨q, hq, hqe⟩
    by_cases hk : (q.1 == k) = true
    · rw [if_pos hk] at hqe
      subst hqe
      rcases List.mem_append.mp hev with h1 | h1
      · exact hd q hq ev h1
      · rw [List.mem_singleton.mp h1]; exact hfe
    · rw [if_neg hk] at hqe
      subst hqe
      exact hd q hq ev hev
  · intro p hp ev hev
    rcases List.mem_append.mp hp with h1 | h1
    · exact hd p h1 ev hev
    · rw [List.mem_singleton.mp h1] at hev
      rw [List.mem_singleton.mp hev]
      exact hfe

theorem pendingAllFiles_remove (d : PendingMap) (k : String)
    (hd : pendingAllFiles d) : pendingAllFiles (pendingRemove d k) := by
  intro p hp
  exact hd p (List.mem_of_mem_filter hp)

theorem pendingPop_all_files (d : PendingMap) (k : String)
    (hd : pendingAllFiles d) :
    ∀ ev ∈ pendingPop d k, ServerSentEvent.event ev = "file" := by
  intro ev hev
  unfold pendingPop at hev
  rcases hfind : d.find? (fun p => p.1 == k) with _ | q
  · rw [hfind] at hev; simp at hev
  · rw [hfind] at hev
    have hev2 : ev ∈ q.2 := hev
    exact hd q (List.mem_of_find?_eq_some hfind) ev hev2

/-- If a handler element is not a raw SSE event named "done", the event
emitted for it is not named "done". -/
theorem translateEvent_not_done (e : HandlerEvent)
    (h : ∀ ev, e = HandlerEvent.sse ev → ev.event ≠ "done") :
    (translateEvent e).event ≠ "done" := by
  cases e with
  | sse ev => exact h ev rfl
  | errorResp t raw ar et => simp [translateEvent, PoeBot.error_event]
  | metaResp ct rf l sr => simp [translateEvent, PoeBot.meta_event]
  | dataResp m => simp [translateEvent, PoeBot.data_event]
  | partialResp t sugg repl =>
      cases sugg <;> cases repl <;>
        simp [translateEvent, PoeBot.suggested_reply_event,
          PoeBot.replace_response_event, PoeBot.text_event]

theorem runHandler_no_done (mid : String) (trace : List HandlerAction)
    (d : PendingMap) (hd : pendingAllFiles d)
    (h : ∀ ev, HandlerAction.yieldElem (HandlerEvent.sse ev) ∈ trace →
          ev.event ≠ "done") :
    ((runHandler mid d trace).1.countP (fun ev => ev.event == "done") = 0)
      ∧ pendingAllFiles (runHandler mid d trace).2.1 := by
  induction trace generalizing d with
  | nil => exact ⟨rfl, hd⟩
  | cons a rest ih =>
      have hrest : ∀ ev, HandlerAction.yieldElem (HandlerEvent.sse ev) ∈ rest →
          ev.event ≠ "done" := by
        intro ev hev
        exact h ev (List.mem_cons_of_mem _ hev)
      cases a with
      | enqueueFile k u c n rr =>
          exact ih (pendingAppend d k (PoeBot.file_event u c n rr))
            (pendingAllFiles_append d k _ hd rfl) hrest
      | raiseExc s => exact ⟨rfl, hd⟩
      | yieldElem e =>
          have hte : (translateEvent e).event ≠ "done" := by
            refine translateEvent_not_done e ?_
            intro ev hev
            exact h ev (by rw [hev]; exact List.mem_cons_self _ _)
          obtain ⟨ih1, ih2⟩ := ih (pendingRemove d mid)
            (pendingAllFiles_remove d mid hd) hrest
          refine ⟨?_, ih2⟩
          show ((pendingPop d mid
              ++ translateEvent e :: (runHandler mid (pendingRemove d mid) rest).1).countP
                (fun ev => ev.event == "done")) = 0
          rw [List.countP_append, List.countP_cons]
          have hpop : (pendingPop d mid).countP (fun ev => ev.event == "done") = 0 := by
            rw [List.countP_eq_zero]
            intro ev hev
            have := pendingPop_all_files d mid hd ev hev
            simp [this]
          rw [hpop, ih1]
          simp [hte]

/-- C2 counterexample: the dispatcher passes raw `ServerSentEvent`s from
the handler through unmodified, so a handler that yields a raw `done`
event produces a stream with two `done` events and an event before the
final one. -/
theorem done_event_unique_counterexample :
    handle_query "m" [.yieldElem (.sse PoeBot.done_event)]
        = [PoeBot.done_event, PoeBot.done_event]
      ∧ (handle_query "m" [.yieldElem (.sse PoeBot.done_event)]).countP
          (fun ev => ev.event == "done") = 2 := by
  exact ⟨rfl, rfl⟩

/-- C2 (amended): provided the handler never yields a raw SSE event named
"done", the stream `handle_query` emits contains exactly one `done` event
and it is the final event — whether the handler completes normally or
raises. -/
theorem done_exactly_once_and_final (mid : String)
    (trace : List HandlerAction)
    (h : ∀ ev, HandlerAction.yieldElem (HandlerEvent.sse ev) ∈ trace →
          ev.event ≠ "done") :
    (handle_query mid trace).countP (fun ev => ev.event == "done") = 1
      ∧ (handle_query mid trace).getLast? = some PoeBot.done_event := by
  obtain ⟨h1, h2⟩ := runHandler_no_done mid trace [] (by intro p hp; simp at hp) h
  unfold handle_query
  rcases hr : runHandler mid [] trace with ⟨evs, d', exc⟩
  rw [hr] at h1 h2
  simp only at h1 h2
  cases exc with
  | none =>
      constructor
      · rw [List.countP_append, List.countP_append, h1]
        have hpop : (pendingPop d' mid).countP (fun ev => ev.event == "done") = 0 := by
          rw [List.countP_eq_zero]
          intro ev hev
          have := pendingPop_all_files d' mid h2 ev hev
          simp [this]
        rw [hpop]
        rfl
      · show (evs ++ pendingPop d' mid ++ [PoeBot.done_event]).getLast?
            = some PoeBot.done_event
        exact List.getLast?_concat _
  | some r =>
      constructor
      · rw [List.countP_append, h1]
        rfl
      · show (evs ++ [PoeBot.error_event _ _ _ _, PoeBot.done_event]).getLast?
            = some PoeBot.done_event
        have : evs ++ [PoeBot.error_event
              (some "The bot encountered an unexpected issue.") (some r) false none,
            PoeBot.done_event]
            = (evs ++ [PoeBot.error_event
                (some "The bot encountered an unexpected issue.") (some r) false none])
              ++ [PoeBot.done_event] := by
          simp
        rw [this]
        exact List.getLast?_concat _

/-- Witness for `done_exactly_once_and_final` at a concrete trace. -/
theorem done_exactly_once_and_final_witness :
    (∀ ev, HandlerAction.yieldElem (HandlerEvent.sse ev) ∈
        ([.yieldElem (.partialResp "hi" false false),
          .raiseExc "RuntimeError: x"] : List HandlerAction) →
        ev.event ≠ "done")
    ∧ (handle_query "m" [.yieldElem (.partialResp "hi" false false),
          .raiseExc "RuntimeError: x"]).countP
          (fun ev => ev.event == "done") = 1
    ∧ (handle_query "m" [.yieldElem (.partialResp "hi" false false),
          .raiseExc "RuntimeError: x"]).getLast? = some PoeBot.done_event := by
  have h : ∀ ev, HandlerAction.yieldElem (HandlerEvent.sse ev) ∈
      ([.yieldElem (.partialResp "hi" false false),
        .raiseExc "RuntimeError: x"] : List HandlerAction) →
      ev.event ≠ "done" := by
    intro ev hev
    simp at hev
  obtain ⟨h1, h2⟩ := done_exactly_once_and_final "m"
    [.yieldElem (.partialResp "hi" false false), .raiseExc "RuntimeError: x"] h
  exact ⟨h, h1, h2⟩

/-- C10: a plain `PartialResponse` with both `is_suggested_reply=true` and
`is_replace_response=true` is encoded as a `suggested_reply` event, never
as a `replace_response` event. -/
theorem suggested_reply_flag_takes_precedence (t : String) :
    translateEvent (.partialResp t true true) = PoeBot.suggested_reply_event t
    ∧ (translateEvent (.partialResp t true true)).event = "suggested_reply"
    ∧ (∀ s, translateEvent (.partialResp t true true)
          ≠ PoeBot.replace_response_event s)
    ∧ handle_query "m" [.yieldElem (.partialResp t true true)]
        = [PoeBot.suggested_reply_event t, PoeBot.done_event] := by
  refine ⟨rfl, rfl, ?_, rfl⟩
  intro s hcontra
  have : "suggested_reply" = "replace_response" := congrArg ServerSentEvent.event hcontra
  simp at this

/-! ## Protocol messages, attachments, role alternation (types.py, base.py) -/

/-- `ProtocolMessage.role` (`Literal["system", "user", "bot", "tool"]`). -/
inductive Role where
  | system : Role
  | user : Role
  | bot : Role
  | tool : Role
  deriving DecidableEq, Repr

/-- `types.Attachment`. -/
structure Attachment where
  url : String
  content_type : String
  name : String
  inline_ref : Option String := none
  parsed_content : Option String := none
  deriving DecidableEq, Repr

/-- `types.ProtocolMessage`, restricted to the fields consulted by the
modelled functions (`role`, `content`, `attachments`); the remaining
fields (`content_type`, `timestamp`, …) are carried through unchanged by
`model_copy` and never read. -/
structure ProtocolMessage where
  role : Role
  content : String
  attachments : List Attachment := []
  deriving DecidableEq, Repr

/-- The attachment-deduplication loop of
`make_prompt_author_role_alternated`: keep an attachment only if its url
was not seen before (`added_attachment_urls`). -/
def dedupByUrlAux (added : List String) : List Attachment → List Attachment
  | [] => []
  | a :: rest =>
      if a.url ∈ added then dedupByUrlAux added rest
      else a :: dedupByUrlAux (a.url :: added) rest

/-- Deduplicate a list of attachments by url, keeping the first
occurrence, starting from an empty seen-set. -/
def dedupAttachmentsByUrl (atts : List Attachment) : List Attachment :=
  dedupByUrlAux [] atts

/-- One iteration of the loop of `PoeBot.make_prompt_author_role_alternated`
(base.py lines 590-610): if the incoming message has the same role as the
last retained message, pop it and push the merged message (contents
joined with a blank line; attachments: the incoming message's list, then
the previous message's, deduplicated by url keeping the first
occurrence); otherwise append the incoming message. -/
def roleAltStep (new_messages : List ProtocolMessage) (m : ProtocolMessage) :
    List ProtocolMessage :=
  match new_messages.getLast? with
  | some prev =>
      if m.role = prev.role then
        new_messages.dropLast
          ++ [{ prev with
                content := prev.content ++ "\n\n" ++ m.content,
                attachments :=
                  dedupAttachmentsByUrl (m.attachments ++ prev.attachments) }]
      else new_messages ++ [m]
  | none => new_messages ++ [m]

/-- `PoeBot.make_prompt_author_role_alternated` (base.py lines 574-612). -/
def make_prompt_author_role_alternated (msgs : List ProtocolMessage) :
    List ProtocolMessage :=
  msgs.foldl roleAltStep []

/-- Modelled from the spec: merged attachments "union their attachments by
`url` (earlier occurrence wins)" — the earlier (previous retained)
message's attachments first, duplicates resolved in favour of the earlier
occurrence.  Used to compare the spec's words against the source's merge
(which puts the incoming message's attachments first). -/
def specMergeAttachmentsEarlierWins (prev m : ProtocolMessage) :
    List Attachment :=
  dedupAttachmentsByUrl (prev.attachments ++ m.attachments)

example :
    make_prompt_author_role_alternated
      [⟨.user, "a", [⟨"u1", "text/plain", "test.txt", none, some "x"⟩]⟩,
       ⟨.user, "b", [⟨"u2", "text/plain", "test2.txt", none, some "y"⟩]⟩,
       ⟨.bot, "c", []⟩] =
      [⟨.user, "a\n\nb",
        [⟨"u2", "text/plain", "test2.txt", none, some "y"⟩,
         ⟨"u1", "text/plain", "test.txt", none, some "x"⟩]⟩,
       ⟨.bot, "c", []⟩] := by decide

/-- C4 counterexample: when the same url appears in both merged messages,
the source keeps the *later* message's attachment (the incoming message's
list is iterated first), not the earlier occurrence the claim requires. -/
theorem role_alternation_earlier_wins_counterexample :
    make_prompt_author_role_alternated
        [⟨.user, "one", [⟨"u", "text/plain", "a1", none, none⟩]⟩,
         ⟨.user, "two", [⟨"u", "text/plain", "a2", none, none⟩]⟩]
        = [⟨.user, "one\n\ntwo", [⟨"u", "text/plain", "a2", none, none⟩]⟩]
      ∧ specMergeAttachmentsEarlierWins
          ⟨.user, "one", [⟨"u", "text/plain", "a1", none, none⟩]⟩
          ⟨.user, "two", [⟨"u", "text/plain", "a2", none, none⟩]⟩
        = [⟨"u", "text/plain", "a1", none, none⟩]
      ∧ (⟨"u", "text/plain", "a2", none, none⟩ : Attachment)
        ≠ ⟨"u", "text/plain", "a1", none, none⟩ := by decide

theorem mem_url_dedupByUrlAux (u : String) :
    ∀ (xs : List Attachment) (added : List String),
      u ∈ (dedupByUrlAux added xs).map Attachment.url
        ↔ (u ∉ added ∧ u ∈ xs.map Attachment.url) := by
  intro xs
  induction xs with
  | nil => intro added; simp [dedupByUrlAux]
  | cons a rest ih =>
      intro added
      by_cases ha : a.url ∈ added
      · rw [dedupByUrlAux, if_pos ha, ih]
        constructor
        · rintro ⟨h1, h2⟩
          exact ⟨h1, List.mem_cons_of_mem _ h2⟩
        · rintro ⟨h1, h2⟩
          rcases List.mem_cons.mp h2 with h3 | h3
          · exact absurd (h3 ▸ ha) h1
          · exact ⟨h1, h3⟩
      · rw [dedupByUrlAux, if_neg ha]
        simp only [List.map_cons, List.mem_cons, ih]
        constructor
        · rintro (h1 | ⟨h1, h2⟩)
          · exact ⟨h1 ▸ ha, Or.inl h1⟩
          · refine ⟨fun hc => h1 (Or.inr hc), Or.inr h2⟩
        · rintro ⟨h1, h2 | h2⟩
          · exact Or.inl h2
          · by_cases hu : u = a.url
            · exact Or.inl hu
            · exact Or.inr ⟨fun hc => hc.elim hu h1, h2⟩

theorem mem_dedupByUrlAux (a : Attachment) :
    ∀ (xs : List Attachment) (added : List String),
      a ∈ dedupByUrlAux added xs → a ∈ xs ∧ a.url ∉ added := by
  intro xs
  induction xs with
  | nil => intro added h; simp [dedupByUrlAux] at h
  | cons x rest ih =>
      intro added h
      by_cases hx : x.url ∈ added
      · rw [dedupByUrlAux, if_pos hx] at h
        obtain ⟨h1, h2⟩ := ih added h
        exact ⟨List.mem_cons_of_mem _ h1, h2⟩
      · rw [dedupByUrlAux, if_neg hx] at h
        rcases List.mem_cons.mp h with h1 | h1
        · exact ⟨h1 ▸ List.mem_cons_self _ _, h1 ▸ hx⟩
        · obtain ⟨h2, h3⟩ := ih _ h1
          exact ⟨List.mem_cons_of_mem _ h2,
                 fun hc => h3 (List.mem_cons_of_mem _ hc)⟩

theorem dedupByUrlAux_append :
    ∀ (ys : List Attachment) (added : List String) (zs : List Attachment),
      ∃ added2,
        dedupByUrlAux added (ys ++ zs)
          = dedupByUrlAux added ys ++ dedupByUrlAux added2 zs
        ∧ (∀ u, u ∈ added2 ↔ u ∈ added ∨ u ∈ ys.map Attachment.url) := by
  intro ys
  induction ys with
  | nil =>
      intro added zs
      exact ⟨added, by simp [dedupByUrlAux]⟩
  | cons y rest ih =>
      intro added zs
      by_cases hy : y.url ∈ added
      · obtain ⟨added2, h1, h2⟩ := ih added zs
        refine ⟨added2, ?_, ?_⟩
        · show dedupByUrlAux added (y :: (rest ++ zs)) = _
          rw [dedupByUrlAux, if_pos hy, h1, dedupByUrlAux, if_pos hy]
        · intro u
          rw [h2 u]
          simp only [List.map_cons, List.mem_cons]
          constructor
          · rintro (h | h)
            · exact Or.inl h
            · exact Or.inr (Or.inr h)
          · rintro (h | h | h)
            · exact Or.inl h
            · exact Or.inl (h ▸ hy)
            · exact Or.inr h
      · obtain ⟨added2, h1, h2⟩ := ih (y.url :: added) zs
        refine ⟨added2, ?_, ?_⟩
        · show dedupByUrlAux added (y :: (rest ++ zs)) = _
          rw [dedupByUrlAux, if_neg hy, h1, dedupByUrlAux, if_neg hy,
            List.cons_append]
        · intro u
          rw [h2 u]
          simp only [List.mem_cons, List.map_cons]
          tauto

/-- Urls appearing in the attachments of a message list, in order. -/
def attachmentUrls (msgs : List ProtocolMessage) : List String :=
  (msgs.map (fun m => m.attachments.map Attachment.url)).flatten

theorem attachmentUrls_append (xs ys : List ProtocolMessage) :
    attachmentUrls (xs ++ ys) = attachmentUrls xs ++ attachmentUrls ys := by
  simp [attachmentUrls]

theorem mem_url_merged (prev m : ProtocolMessage) (u : String) :
    u ∈ (dedupAttachmentsByUrl (m.attachments ++ prev.attachments)).map
          Attachment.url
      ↔ (u ∈ prev.attachments.map Attachment.url
          ∨ u ∈ m.attachments.map Attachment.url) := by
  rw [dedupAttachmentsByUrl, mem_url_dedupByUrlAux]
  simp only [List.mem_nil_iff, not_false_iff, true_and, List.map_append,
    List.mem_append]
  tauto

theorem roleAltStep_eq_none (acc : List ProtocolMessage)
    (m : ProtocolMessage) (hlast : acc.getLast? = none) :
    roleAltStep acc m = acc ++ [m] := by
  unfold roleAltStep
  rw [hlast]

theorem roleAltStep_eq_some (acc : List ProtocolMessage)
    (m prev : ProtocolMessage) (hlast : acc.getLast? = some prev) :
    roleAltStep acc m
      = if m.role = prev.role
        then acc.dropLast
          ++ [{ prev with
                content := prev.content ++ "\n\n" ++ m.content,
                attachments :=
                  dedupAttachmentsByUrl (m.attachments ++ prev.attachments) }]
        else acc ++ [m] := by
  unfold roleAltStep
  rw [hlast]

theorem attachmentUrls_single (msg : ProtocolMessage) :
    attachmentUrls [msg] = msg.attachments.map Attachment.url := by
  simp [attachmentUrls]

theorem roleAltStep_urls (acc : List ProtocolMessage) (m : ProtocolMessage)
    (u : String) :
    u ∈ attachmentUrls (roleAltStep acc m)
      ↔ (u ∈ attachmentUrls acc ∨ u ∈ m.attachments.map Attachment.url) := by
  rcases hlast : acc.getLast? with _ | prev
  · rw [roleAltStep_eq_none acc m hlast, attachmentUrls_append,
      attachmentUrls_single]
    simp [List.mem_append]
  · rw [roleAltStep_eq_some acc m prev hlast]
    by_cases hrole : m.role = prev.role
    · rw [if_pos hrole]
      have hne : acc ≠ [] := by
        intro hc
        rw [hc] at hlast
        simp at hlast
      have h3 := List.getLast?_eq_getLast acc hne
      rw [hlast] at h3
      have hlast2 : acc.getLast hne = prev := (Option.some_inj.mp h3).symm
      have hacc : acc.dropLast ++ [prev] = acc := by
        rw [← hlast2]
        exact List.dropLast_append_getLast hne
      rw [attachmentUrls_append, attachmentUrls_single]
      conv_rhs => rw [← hacc, attachmentUrls_append, attachmentUrls_single]
      have hproj : ({ prev with
          content := prev.content ++ "\n\n" ++ m.content,
          attachments :=
            dedupAttachmentsByUrl (m.attachments ++ prev.attachments) } :
            ProtocolMessage).attachments
          = dedupAttachmentsByUrl (m.attachments ++ prev.attachments) := rfl
      rw [hproj]
      simp only [List.mem_append]
      rw [mem_url_merged prev m u]
      tauto
    · rw [if_neg hrole, attachmentUrls_append, attachmentUrls_single]
      simp [List.mem_append]

theorem foldl_roleAltStep_urls (msgs : List ProtocolMessage) :
    ∀ (acc : List ProtocolMessage) (u : String),
      u ∈ attachmentUrls (msgs.foldl roleAltStep acc)
        ↔ (u ∈ attachmentUrls acc ∨ u ∈ attachmentUrls msgs) := by
  induction msgs with
  | nil => intro acc u; simp [attachmentUrls]
  | cons m rest ih =>
      intro acc u
      rw [List.foldl_cons, ih, roleAltStep_urls]
      have : attachmentUrls (m :: rest)
          = m.attachments.map Attachment.url ++ attachmentUrls rest := by
        simp [attachmentUrls]
      rw [this]
      simp only [List.mem_append]
      tauto

/-- C4 (amended): when role compaction merges a message `m` into the
previous retained message `prev` of the same role, the merged content is
`prev.content ++ "\n\n" ++ m.content`, and the merged attachment list is
the *incoming (later)* message's attachments followed by the previous
message's, deduplicated by url with the later message's occurrence
winning; the merged url set, and the url set of the whole compaction,
still equal the union of the inputs. -/
theorem role_alternation_merge (acc : List ProtocolMessage)
    (prev m : ProtocolMessage) (msgs : List ProtocolMessage) :
    (roleAltStep (acc ++ [prev]) m
        = if m.role = prev.role
          then acc ++ [{ prev with
                content := prev.content ++ "\n\n" ++ m.content,
                attachments :=
                  dedupAttachmentsByUrl (m.attachments ++ prev.attachments) }]
          else (acc ++ [prev]) ++ [m])
      ∧ (∀ u, u ∈ (dedupAttachmentsByUrl
              (m.attachments ++ prev.attachments)).map Attachment.url
            ↔ (u ∈ prev.attachments.map Attachment.url
                ∨ u ∈ m.attachments.map Attachment.url))
      ∧ (∀ a ∈ dedupAttachmentsByUrl (m.attachments ++ prev.attachments),
            a ∈ m.attachments
              ∨ (a ∈ prev.attachments
                  ∧ a.url ∉ m.attachments.map Attachment.url))
      ∧ (∀ u, u ∈ attachmentUrls (make_prompt_author_role_alternated msgs)
            ↔ u ∈ attachmentUrls msgs) := by
  refine ⟨?_, mem_url_merged prev m, ?_, ?_⟩
  · unfold roleAltStep
    rw [List.getLast?_concat, List.dropLast_concat]
  · intro a ha
    obtain ⟨added2, h1, h2⟩ :=
      dedupByUrlAux_append m.attachments [] prev.attachments
    rw [dedupAttachmentsByUrl, h1] at ha
    rcases List.mem_append.mp ha with h3 | h3
    · exact Or.inl (mem_dedupByUrlAux a m.attachments [] h3).1
    · obtain ⟨h4, h5⟩ := mem_dedupByUrlAux a prev.attachments added2 h3
      refine Or.inr ⟨h4, fun hc => h5 ((h2 a.url).mpr (Or.inr hc))⟩
  · intro u
    rw [make_prompt_author_role_alternated, foldl_roleAltStep_urls]
    simp [attachmentUrls]

/-! ## Attachment pre-processing (`insert_attachment_messages`, templates.py) -/

/-- `templates.TEXT_ATTACHMENT_TEMPLATE`, applied to its two fields. -/
def TEXT_ATTACHMENT_TEMPLATE (attachment_name attachment_parsed_content :
    String) : String :=
  "Your response must be in the language of the relevant queries related to the document.\nBelow is the content of "
    ++ attachment_name ++ ":\n\n" ++ attachment_parsed_content

/-- `templates.URL_ATTACHMENT_TEMPLATE`, applied to its two fields. -/
def URL_ATTACHMENT_TEMPLATE (attachment_name content : String) : String :=
  "Assume you can access the external URL " ++ attachment_name
    ++ ". Your response must be in the language of the relevant queries related to the URL.\nUse the URL\x27s content below to respond to the queries:\n\n"
    ++ content

/-- `templates.IMAGE_VISION_ATTACHMENT_TEMPLATE`, applied to its two
fields. -/
def IMAGE_VISION_ATTACHMENT_TEMPLATE (filename parsed_image_description :
    String) : String :=
  "I have uploaded an image (" ++ filename
    ++ "). Assume that you can see the attached image. First, read the image analysis:\n\n<image_analysis>"
    ++ parsed_image_description
    ++ "</image_analysis>\n\nUse any relevant parts to inform your response. Do NOT reference the image analysis in your response. Respond in the same language as my next message. "

/-- Python truthiness of an `Optional[str]` (`None` and `""` are falsy). -/
def truthyOpt : Option String → Bool
  | some s => s != ""
  | none => false

/-- Whether a character list starts with another. -/
def charListStartsWith : List Char → List Char → Bool
  | _, [] => true
  | [], _ :: _ => false
  | a :: as, b :: bs => a = b && charListStartsWith as bs

/-- Python `s.startswith(p)`. -/
def strStartsWith (s p : String) : Bool :=
  charListStartsWith s.data p.data

def strContainsAux (sub : List Char) : List Char → Bool
  | [] => charListStartsWith [] sub
  | c :: cs => charListStartsWith (c :: cs) sub || strContainsAux sub cs

/-- Python `sub in s` on strings (substring containment). -/
def strContains (s sub : String) : Bool :=
  strContainsAux sub.data s.data

def splitOnFirstAux (sep : List Char) :
    List Char → List Char → Option (List Char × List Char)
  | _, [] => none
  | acc, c :: cs =>
      if charListStartsWith (c :: cs) sep then
        some (acc.reverse, (c :: cs).drop sep.length)
      else splitOnFirstAux sep (c :: acc) cs

/-- Python `s.split(sep, 1)` when it yields two parts: the text before the
first occurrence of `sep` and everything after it; `none` when `sep` does
not occur (where the two-name unpacking raises `ValueError`). -/
def splitOnFirst (s sep : String) : Option (String × String) :=
  match sep.data with
  | [] => none
  | _ :: _ =>
      (splitOnFirstAux sep.data [] s.data).map
        (fun p => (String.mk p.1, String.mk p.2))

example : splitOnFirst "test.png***Hello***x" "***"
    = some ("test.png", "Hello***x") := by decide
example : splitOnFirst "Hello" "***" = none := by decide
example : strContains "image/png" "image" = true := by decide
example : strContains "video/mp4" "image" = false := by decide
example : strStartsWith "text/plain" "text/" = true := by decide

/-- The image-message content for an attachment: Poe sends analyses as
`filename***analysis`; split on the first `***`, falling back to the
attachment name and the whole parsed content (the `except ValueError`
branch). -/
def imageContentOf (a : Attachment) (pc : String) : String :=
  match splitOnFirst pc "***" with
  | some (x, y) => IMAGE_VISION_ATTACHMENT_TEMPLATE x y
  | none => IMAGE_VISION_ATTACHMENT_TEMPLATE a.name pc

/-- One iteration of the attachment loop of
`PoeBot.insert_attachment_messages` (base.py lines 526-563), accumulating
the `text_attachment_messages` and `image_attachment_messages` lists. -/
def insertLoopStep (acc : List ProtocolMessage × List ProtocolMessage)
    (a : Attachment) : List ProtocolMessage × List ProtocolMessage :=
  if truthyOpt a.parsed_content then
    let pc := a.parsed_content.getD ""
    if a.content_type = "text/html" then
      (acc.1 ++ [⟨.user, URL_ATTACHMENT_TEMPLATE a.name pc, []⟩], acc.2)
    else if strStartsWith a.content_type "text/"
        || a.content_type = "application/pdf" then
      (acc.1 ++ [⟨.user, TEXT_ATTACHMENT_TEMPLATE a.name pc, []⟩], acc.2)
    else if strContains a.content_type "image" then
      (acc.1, acc.2 ++ [⟨.user, imageContentOf a pc, []⟩])
    else acc
  else acc

/-- `PoeBot.insert_attachment_messages` (base.py lines 508-572), acting on
the `query` list of a `QueryRequest`: run the attachment loop over the
last message's attachments and rebuild the query as
`query[:-1] + text_attachment_messages + image_attachment_messages +
[last_message]`.  On an empty query, `query[-1]` raises `IndexError`,
modelled as `none`. -/
def insert_attachment_messages (query : List ProtocolMessage) :
    Option (List ProtocolMessage) :=
  query.getLast?.map (fun last =>
    let pair := last.attachments.foldl insertLoopStep ([], [])
    query.dropLast ++ pair.1 ++ pair.2 ++ [last])

/-- The text/URL message synthesized for an attachment, if any. -/
def textAttachmentMessage? (a : Attachment) : Option ProtocolMessage :=
  if truthyOpt a.parsed_content then
    let pc := a.parsed_content.getD ""
    if a.content_type = "text/html" then
      some ⟨.user, URL_ATTACHMENT_TEMPLATE a.name pc, []⟩
    else if strStartsWith a.content_type "text/"
        || a.content_type = "application/pdf" then
      some ⟨.user, TEXT_ATTACHMENT_TEMPLATE a.name pc, []⟩
    else none
  else none

/-- The image message synthesized for an attachment, if any. -/
def imageAttachmentMessage? (a : Attachment) : Option ProtocolMessage :=
  if truthyOpt a.parsed_content then
    let pc := a.parsed_content.getD ""
    if a.content_type = "text/html" then none
    else if strStartsWith a.content_type "text/"
        || a.content_type = "application/pdf" then none
    else if strContains a.content_type "image" then
      some ⟨.user, imageContentOf a pc, []⟩
    else none
  else none

theorem filterMap_cons_toList {α β : Type} (f : α → Option β) (a : α)
    (l : List α) :
    List.filterMap f (a :: l) = (f a).toList ++ List.filterMap f l := by
  cases h : f a <;> simp [List.filterMap_cons, h]

theorem insertLoopStep_eq (t i : List ProtocolMessage) (a : Attachment) :
    insertLoopStep (t, i) a
      = (t ++ (textAttachmentMessage? a).toList,
         i ++ (imageAttachmentMessage? a).toList) := by
  unfold insertLoopStep textAttachmentMessage? imageAttachmentMessage?
  split_ifs <;> simp

theorem insert_fold (atts : List Attachment) :
    ∀ t i : List ProtocolMessage,
      atts.foldl insertLoopStep (t, i)
        = (t ++ atts.filterMap textAttachmentMessage?,
           i ++ atts.filterMap imageAttachmentMessage?) := by
  induction atts with
  | nil => intro t i; simp
  | cons a rest ih =>
      intro t i
      rw [List.foldl_cons, insertLoopStep_eq, ih,
        filterMap_cons_toList, filterMap_cons_toList]
      simp

/-- C6 counterexample: an attachment with non-empty `parsed_content` but
an unsupported content type (here `video/mp4`) produces *no* synthesized
message — the query is returned unchanged. -/
theorem insert_attachment_messages_video_counterexample :
    insert_attachment_messages
        [⟨.user, "hi", [⟨"u", "video/mp4", "v.mp4", none, some "desc"⟩]⟩]
      = some [⟨.user, "hi", [⟨"u", "video/mp4", "v.mp4", none, some "desc"⟩]⟩]
    ∧ truthyOpt (some "desc") = true := by decide

/-- C6 (amended): for a non-empty query, the pre-processor synthesizes one
user-role message per attachment of the last message that has non-empty
`parsed_content` *and* a supported content type (text/html, `text/*`,
application/pdf, or a type containing "image"; others are skipped), and
the rewritten query is the original messages up to the last, then the
text/URL attachment messages in attachment order, then the image
attachment messages, then the original last message verbatim. -/
theorem insert_attachment_messages_additive (pre : List ProtocolMessage)
    (last : ProtocolMessage) :
    insert_attachment_messages (pre ++ [last])
      = some (pre ++ last.attachments.filterMap textAttachmentMessage?
          ++ last.attachments.filterMap imageAttachmentMessage? ++ [last]) := by
  unfold insert_attachment_messages
  rw [List.getLast?_concat]
  show some _ = some _
  rw [List.dropLast_concat]
  simp [insert_fold]

/-! ## Streaming tool-call aggregation (`_stream_request_with_tools`,
client.py lines 481-599) -/

/-- `types.ToolCallDefinitionDelta.FunctionDefinitionDelta`. -/
structure FunctionDefinitionDelta where
  name : Option String := none
  arguments : String
  deriving DecidableEq, Repr

/-- `types.ToolCallDefinitionDelta`. -/
structure ToolCallDefinitionDelta where
  index : Int := 0
  id : Option String := none
  type : Option String := none
  function : FunctionDefinitionDelta
  deriving DecidableEq, Repr

/-- Modelled from the spec: `FunctionCallDefinition` is imported by
client.py from `types` but its class definition is not in the snapshot;
§3 of the spec gives its shape, `function{name,arguments}` with the
function name a string and the arguments a JSON string. -/
structure FunctionCallDefinition where
  name : String
  arguments : String
  deriving DecidableEq, Repr

/-- `types.ToolCallDefinition` (`id`, `type`, `function{name,arguments}`). -/
structure ToolCallDefinition where
  id : String
  type : String
  function : FunctionCallDefinition
  deriving DecidableEq, Repr

/-- The `delta` object of `choices[0]` of a streamed OpenAI chunk: it
either carries `tool_calls`, or `content`, or neither. -/
inductive DeltaContent where
  | toolCallsD (ds : List ToolCallDefinitionDelta) : DeltaContent
  | contentD (s : String) : DeltaContent
  | otherD : DeltaContent
  deriving DecidableEq, Repr

/-- A message streamed back by `stream_request_base` as seen by the
tool-call orchestrator: either a message whose `data` is `None` / has no
(non-empty) `choices` (passed through, never aggregated), or an
OpenAI-shaped chunk with `choices[0].finish_reason` and
`choices[0].delta`. -/
inductive StreamMsg where
  | plain : StreamMsg
  | chunk (finishReason : Option String) (delta : DeltaContent) : StreamMsg
  deriving DecidableEq, Repr

/-- `aggregated_tool_calls : dict[int, ToolCallDefinition]`, modelled as an
association list in insertion order. -/
abbrev AggMap := List (Int × ToolCallDefinition)

/-- `aggregated_tool_calls[i]` if present (first entry with matching
key; keys are unique by construction). -/
def lookupAgg : AggMap → Int → Option ToolCallDefinition
  | [], _ => none
  | p :: rest, i => if p.1 == i then some p.2 else lookupAgg rest i

/-- `tc.function.arguments += s`. -/
def appendArgs (tc : ToolCallDefinition) (s : String) : ToolCallDefinition :=
  { tc with function :=
      { tc.function with arguments := tc.function.arguments ++ s } }

/-- `aggregated_tool_calls[j].function.arguments += s`, as a map update. -/
def updateAgg (agg : AggMap) (j : Int) (s : String) : AggMap :=
  agg.map (fun p => if p.1 == j then (p.1, appendArgs p.2 s) else p)

/-- The `ToolCallDefinition` seeded by a delta that carries `id`, `type`,
and `function.name` (client.py lines 554-561); `none` when any of the
three is missing (the `continue` at lines 547-552). -/
def seedOf (d : ToolCallDefinitionDelta) : Option ToolCallDefinition :=
  match d.id, d.type, d.function.name with
  | some i0, some t, some n => some ⟨i0, t, ⟨n, d.function.arguments⟩⟩
  | _, _, _ => none

/-- The per-delta body of the aggregation loop (client.py lines 542-565):
a delta at an existing index appends its `function.arguments`; a delta at
a new index seeds the call only when it carries `id`, `type`, and
`function.name`, and is discarded otherwise. -/
def processToolCallDelta (agg : AggMap) (d : ToolCallDefinitionDelta) :
    AggMap :=
  if agg.any (fun p => p.1 == d.index) then
    updateAgg agg d.index d.function.arguments
  else
    match seedOf d with
    | some tc => agg ++ [(d.index, tc)]
    | none => agg

/-- The per-message body of `_stream_request_with_tools`' loop, restricted
to its effect on `aggregated_tool_calls` (with `tool_executables`
provided): pass-through messages and chunks with a non-null
`finish_reason` or without `tool_calls` leave the aggregation unchanged. -/
def processChunk (agg : AggMap) : StreamMsg → AggMap
  | .plain => agg
  | .chunk finishReason delta =>
      if finishReason.isSome then agg
      else
        match delta with
        | .toolCallsD ds => ds.foldl processToolCallDelta agg
        | .contentD _ => agg
        | .otherD => agg

/-- `aggregated_tool_calls` after the whole stream. -/
def aggregateToolCalls (msgs : List StreamMsg) : AggMap :=
  msgs.foldl processChunk []

/-- The tool-call deltas a message contributes to aggregation (none if it
is passed through or skipped because of a non-null `finish_reason`). -/
def chunkDeltas : StreamMsg → List ToolCallDefinitionDelta
  | .chunk none (.toolCallsD ds) => ds
  | _ => []

/-- All aggregated tool-call deltas of a stream, in order. -/
def toolCallDeltas (msgs : List StreamMsg) : List ToolCallDefinitionDelta :=
  (msgs.map chunkDeltas).flatten

/-- The aggregated deltas carrying a given index, in order. -/
def deltasAt (msgs : List StreamMsg) (i : Int) :
    List ToolCallDefinitionDelta :=
  (toolCallDeltas msgs).filter (fun d => d.index == i)

/-- Concatenation of the `arguments` fragments of a delta list onto an
initial string. -/
def argsConcatFrom (init : String) (ds : List ToolCallDefinitionDelta) :
    String :=
  ds.foldl (fun a d => a ++ d.function.arguments) init

/-- The specification-side aggregation of the deltas at one index: deltas
are discarded until the first one carrying `id`, `type`, and
`function.name`, which seeds the call; every delta from the seed onward
contributes its `arguments` fragment, in order; if no delta carries all
three fields, the index is absent. -/
def seedAggregate : List ToolCallDefinitionDelta → Option ToolCallDefinition
  | [] => none
  | d :: rest =>
      match seedOf d with
      | some tc =>
          some ⟨tc.id, tc.type,
            ⟨tc.function.name, argsConcatFrom d.function.arguments rest⟩⟩
      | none => seedAggregate rest

theorem any_eq_lookupAgg_isSome (agg : AggMap) (i : Int) :
    agg.any (fun p => p.1 == i) = (lookupAgg agg i).isSome := by
  induction agg with
  | nil => rfl
  | cons p rest ih =>
      cases hp : (p.1 == i) with
      | true => simp [lookupAgg, List.any_cons, hp]
      | false => simp [lookupAgg, List.any_cons, hp, ih]

theorem lookupAgg_updateAgg_self (agg : AggMap) (j : Int) (s : String) :
    lookupAgg (updateAgg agg j s) j
      = (lookupAgg agg j).map (fun tc => appendArgs tc s) := by
  induction agg with
  | nil => rfl
  | cons p rest ih =>
      have ih2 := ih
      simp only [updateAgg, beq_iff_eq] at ih2
      by_cases hp : p.1 = j
      · simp [updateAgg, lookupAgg, hp]
      · simp [updateAgg, lookupAgg, hp, ih2]

theorem lookupAgg_updateAgg_ne (agg : AggMap) (j : Int) (s : String)
    (i : Int) (h : i ≠ j) :
    lookupAgg (updateAgg agg j s) i = lookupAgg agg i := by
  induction agg with
  | nil => rfl
  | cons p rest ih =>
      have ih2 := ih
      simp only [updateAgg, beq_iff_eq] at ih2
      have hji : ¬j = i := fun hc => h hc.symm
      by_cases hpj : p.1 = j
      · have hpi : ¬p.1 = i := by
          rw [hpj]
          exact hji
        simp [updateAgg, lookupAgg, hpj, hpi, hji, ih2]
      · by_cases hpi : p.1 = i
        · simp [updateAgg, lookupAgg, hpj, hpi, hji, h]
        · simp [updateAgg, lookupAgg, hpj, hpi, hji, ih2]

theorem lookupAgg_append_self (agg : AggMap) (i : Int)
    (tc : ToolCallDefinition) (h : lookupAgg agg i = none) :
    lookupAgg (agg ++ [(i, tc)]) i = some tc := by
  induction agg with
  | nil => simp [lookupAgg]
  | cons p rest ih =>
      by_cases hpi : p.1 = i
      · simp [lookupAgg, hpi] at h
      · simp only [lookupAgg, hpi, if_neg, beq_iff_eq, if_false] at h
        simp [lookupAgg, hpi, ih h]

theorem lookupAgg_append_ne (agg : AggMap) (j : Int)
    (tc : ToolCallDefinition) (i : Int) (h : i ≠ j) :
    lookupAgg (agg ++ [(j, tc)]) i = lookupAgg agg i := by
  induction agg with
  | nil =>
      have hji : ¬j = i := fun hc => h hc.symm
      simp [lookupAgg, hji]
  | cons p rest ih =>
      by_cases hpi : p.1 = i
      · simp [lookupAgg, hpi]
      · simp [lookupAgg, hpi, ih]

theorem argsConcatFrom_eq (ds : List ToolCallDefinitionDelta) :
    ∀ init, argsConcatFrom init ds = init ++ argsConcatFrom "" ds := by
  induction ds with
  | nil => intro init; simp [argsConcatFrom]
  | cons d rest ih =>
      intro init
      show argsConcatFrom (init ++ d.function.arguments) rest
        = init ++ argsConcatFrom ("" ++ d.function.arguments) rest
      rw [ih (init ++ d.function.arguments),
        ih ("" ++ d.function.arguments)]
      simp [String.append_assoc]

theorem argsConcatFrom_cons (d : ToolCallDefinitionDelta)
    (l : List ToolCallDefinitionDelta) :
    argsConcatFrom "" (d :: l)
      = d.function.arguments ++ argsConcatFrom "" l := by
  show argsConcatFrom ("" ++ d.function.arguments) l = _
  rw [argsConcatFrom_eq]
  simp

theorem seedOf_args (d : ToolCallDefinitionDelta) (tc : ToolCallDefinition)
    (h : seedOf d = some tc) :
    tc.function.arguments = d.function.arguments := by
  unfold seedOf at h
  rcases hid : d.id with _ | i0 <;> rcases hty : d.type with _ | t <;>
    rcases hnm : d.function.name with _ | n <;> simp [hid, hty, hnm] at h
  rw [← h]

theorem seedAggregate_cons_some (d : ToolCallDefinitionDelta)
    (tc : ToolCallDefinition) (l : List ToolCallDefinitionDelta)
    (h : seedOf d = some tc) :
    seedAggregate (d :: l)
      = some ⟨tc.id, tc.type,
          ⟨tc.function.name, argsConcatFrom d.function.arguments l⟩⟩ := by
  show (match seedOf d with
    | some tc2 =>
        some (⟨tc2.id, tc2.type,
          ⟨tc2.function.name, argsConcatFrom d.function.arguments l⟩⟩ :
            ToolCallDefinition)
    | none => seedAggregate l) = _
  rw [h]

theorem seedAggregate_cons_none (d : ToolCallDefinitionDelta)
    (l : List ToolCallDefinitionDelta) (h : seedOf d = none) :
    seedAggregate (d :: l) = seedAggregate l := by
  show (match seedOf d with
    | some tc2 =>
        some (⟨tc2.id, tc2.type,
          ⟨tc2.function.name, argsConcatFrom d.function.arguments l⟩⟩ :
            ToolCallDefinition)
    | none => seedAggregate l) = _
  rw [h]

theorem foldl_process_lookup_some (ds : List ToolCallDefinitionDelta) :
    ∀ (agg : AggMap) (i : Int) (tc : ToolCallDefinition),
      lookupAgg agg i = some tc →
      lookupAgg (ds.foldl processToolCallDelta agg) i
        = some (appendArgs tc
            (argsConcatFrom "" (ds.filter (fun d => d.index == i)))) := by
  induction ds with
  | nil =>
      intro agg i tc h
      simp only [List.foldl_nil, List.filter_nil]
      rw [h]
      show _ = some (appendArgs tc "")
      simp [appendArgs]
  | cons d rest ih =>
      intro agg i tc h
      rw [List.foldl_cons]
      by_cases hd : d.index = i
      · subst hd
        have hany : agg.any (fun p => p.1 == d.index) = true := by
          rw [any_eq_lookupAgg_isSome, h]
          rfl
        rw [processToolCallDelta, if_pos hany]
        have h2 : lookupAgg (updateAgg agg d.index d.function.arguments)
            d.index = some (appendArgs tc d.function.arguments) := by
          rw [lookupAgg_updateAgg_self, h]
          rfl
        have hfil : (d :: rest).filter (fun d2 => d2.index == d.index)
            = d :: rest.filter (fun d2 => d2.index == d.index) := by
          simp [List.filter_cons]
        rw [ih _ _ _ h2, hfil, argsConcatFrom_cons]
        simp [appendArgs, String.append_assoc]
      · have hfil : (d :: rest).filter (fun d2 => d2.index == i)
            = rest.filter (fun d2 => d2.index == i) := by
          simp [List.filter_cons, hd]
        rw [hfil]
        have hlook : lookupAgg (processToolCallDelta agg d) i = some tc := by
          rw [processToolCallDelta]
          split
          · rw [lookupAgg_updateAgg_ne _ _ _ _ (fun hc => hd hc.symm)]
            exact h
          · split
            · rw [lookupAgg_append_ne _ _ _ _ (fun hc => hd hc.symm)]
              exact h
            · exact h
        exact ih _ _ _ hlook

theorem foldl_process_lookup_none (ds : List ToolCallDefinitionDelta) :
    ∀ (agg : AggMap) (i : Int),
      lookupAgg agg i = none →
      lookupAgg (ds.foldl processToolCallDelta agg) i
        = seedAggregate (ds.filter (fun d => d.index == i)) := by
  induction ds with
  | nil =>
      intro agg i h
      simpa [seedAggregate] using h
  | cons d rest ih =>
      intro agg i h
      rw [List.foldl_cons]
      by_cases hd : d.index = i
      · subst hd
        have hany : agg.any (fun p => p.1 == d.index) = false := by
          rw [any_eq_lookupAgg_isSome, h]
          rfl
        have hfil : (d :: rest).filter (fun d2 => d2.index == d.index)
            = d :: rest.filter (fun d2 => d2.index == d.index) := by
          simp [List.filter_cons]
        rw [hfil]
        rcases hseed : seedOf d with _ | tc
        · -- missing a seed field: the delta is discarded
          have hstep : processToolCallDelta agg d = agg := by
            rw [processToolCallDelta, if_neg (by simp [hany]), hseed]
          rw [hstep, seedAggregate_cons_none _ _ hseed]
          exact ih agg d.index h
        · -- fully seeded: the new entry is created
          have hstep : processToolCallDelta agg d
              = agg ++ [(d.index, tc)] := by
            rw [processToolCallDelta, if_neg (by simp [hany]), hseed]
          have h2 : lookupAgg (agg ++ [(d.index, tc)]) d.index = some tc :=
            lookupAgg_append_self agg d.index tc h
          rw [hstep, foldl_process_lookup_some _ _ _ _ h2,
            seedAggregate_cons_some _ _ _ hseed,
            argsConcatFrom_eq _ d.function.arguments]
          have hargs := seedOf_args d tc hseed
          simp [appendArgs, hargs]
      · have hfil : (d :: rest).filter (fun d2 => d2.index == i)
            = rest.filter (fun d2 => d2.index == i) := by
          simp [List.filter_cons, hd]
        rw [hfil]
        have hlook : lookupAgg (processToolCallDelta agg d) i = none := by
          rw [processToolCallDelta]
          split
          · rw [lookupAgg_updateAgg_ne _ _ _ _ (fun hc => hd hc.symm)]
            exact h
          · split
            · rw [lookupAgg_append_ne _ _ _ _ (fun hc => hd hc.symm)]
              exact h
            · exact h
        exact ih _ _ hlook

theorem foldl_processChunk_eq (msgs : List StreamMsg) :
    ∀ agg, msgs.foldl processChunk agg
      = (toolCallDeltas msgs).foldl processToolCallDelta agg := by
  induction msgs with
  | nil => intro agg; rfl
  | cons m rest ih =>
      intro agg
      have hstep : processChunk agg m
          = (chunkDeltas m).foldl processToolCallDelta agg := by
        cases m with
        | plain => rfl
        | chunk fr delta =>
            cases fr with
            | some s => rfl
            | none => cases delta <;> rfl
      rw [List.foldl_cons, hstep, ih]
      show _ = ((chunkDeltas m :: rest.map chunkDeltas).flatten).foldl
        processToolCallDelta agg
      rw [List.flatten_cons, List.foldl_append]
      rfl

theorem deltasAt_cons (m : StreamMsg) (rest : List StreamMsg) (i : Int) :
    deltasAt (m :: rest) i
      = (chunkDeltas m).filter (fun d => d.index == i) ++ deltasAt rest i := by
  unfold deltasAt toolCallDeltas
  rw [List.map_cons, List.flatten_cons, List.filter_append]

/-- C3 counterexample: the first delta at index 0 carries no `id`, yet the
index ends up *present* in the aggregation, seeded by a later delta that
does carry `id`, `type`, and `function.name`; the claim requires the index
to be absent whenever the first chunk at that index lacks those fields. -/
theorem toolcall_seedless_first_chunk_counterexample :
    (deltasAt
        [StreamMsg.chunk none (.toolCallsD
          [⟨0, none, none, ⟨none, "x"⟩⟩,
           ⟨0, some "call_1", some "function", ⟨some "f", "y"⟩⟩])]
        0).head?.map ToolCallDefinitionDelta.id = some none
    ∧ lookupAgg
        (aggregateToolCalls
          [StreamMsg.chunk none (.toolCallsD
            [⟨0, none, none, ⟨none, "x"⟩⟩,
             ⟨0, some "call_1", some "function", ⟨some "f", "y"⟩⟩])])
        0
      = some ⟨"call_1", "function", ⟨"f", "y"⟩⟩ := by
  constructor
  · rfl
  · show lookupAgg
        (processToolCallDelta
          (processToolCallDelta [] ⟨0, none, none, ⟨none, "x"⟩⟩)
          ⟨0, some "call_1", some "function", ⟨some "f", "y"⟩⟩) 0 = _
    rfl

/-- C3 (amended): for every stream and index, the aggregated tool call at
that index is exactly `seedAggregate` of the deltas carrying that index
(taken from chunks with a null `finish_reason`; chunks with a non-null
`finish_reason`, pass-through messages, and `content` deltas contribute
nothing): deltas are discarded until the first one carrying `id`, `type`,
and `function.name`, which seeds the call, and the aggregated
`function.arguments` is the ordered concatenation of the fragments from
the seed onward.  In particular, when the *first* delta at the index
carries all three fields, the arguments equal the concatenation of all
fragments at that index, and when *no* delta at the index carries all
three, the index is absent. -/
theorem toolcall_aggregation_characterization (msgs : List StreamMsg)
    (i : Int) :
    lookupAgg (aggregateToolCalls msgs) i = seedAggregate (deltasAt msgs i) := by
  unfold aggregateToolCalls
  rw [foldl_processChunk_eq]
  exact foldl_process_lookup_none (toolCallDeltas msgs) [] i rfl

/-! ## Client SSE state machine (`_BotContext.perform_query_request`,
client.py lines 162-320, and `get_final_response`, lines 820-868) -/

/-- The loop state of `perform_query_request`: the accumulated text
`chunks`, the `event_count`, the `error_reported` flag, and the
out-of-band `report_error` messages sent so far (their metadata dicts are
not modelled). -/
structure ClientState where
  chunks : List String
  eventCount : Nat
  errorReported : Bool
  reports : List String
  deriving DecidableEq, Repr

/-- A message yielded by the client loop — a `MetaResponse` or a
`PartialResponse`.  The debug-only fields (`raw_response`, `full_prompt`,
`request_id`) are not modelled. -/
inductive BotMessage where
  | metaResponse (linkify suggested_replies : Bool) (content_type : String) :
      BotMessage
  | partialResponse (text : String)
      (is_suggested_reply is_replace_response : Bool)
      (attachment : Option Attachment) (data : Option JDoc)
      (index : Option Int) : BotMessage
  deriving DecidableEq, Repr

/-- Whether a yielded message is a `MetaResponse`. -/
def isMetaMsg : BotMessage → Bool
  | .metaResponse .. => true
  | .partialResponse .. => false

/-- The exceptions the client loop can raise: `BotError` (retriable),
`BotErrorNoRetry`, or an uncaught `KeyError` from `data_dict[field]` on a
missing field. -/
inductive ClientErr where
  | botError : ClientErr
  | botErrorNoRetry : ClientErr
  | keyError : ClientErr
  deriving DecidableEq, Repr

inductive StepControl where
  | next : StepControl
  | halt : StepControl
  | raised (e : ClientErr) : StepControl
  deriving DecidableEq, Repr

/-- Result of processing one SSE event: the new loop state, the messages
yielded for it, and whether the loop continues, returns (`done`), or
raises. -/
structure StepOut where
  state : ClientState
  yields : List BotMessage
  control : StepControl
  deriving DecidableEq, Repr

/-- Outcome of `_get_single_json_field` on an object's fields:
`data_dict[field]` raises `KeyError` when missing; a non-string value is
reported and raises `BotErrorNoRetry`. -/
inductive FieldGet where
  | found (s : String) : FieldGet
  | missing : FieldGet
  | notStr : FieldGet
  deriving DecidableEq, Repr

def getStrField (fields : List (String × JVal)) (k : String) : FieldGet :=
  match lookupJ fields k with
  | none => .missing
  | some (.str s) => .found s
  | some _ => .notStr

/-- `_get_single_json_string_field_safe`: `none` when missing or not a
string. -/
def getStrFieldSafe (fields : List (String × JVal)) (k : String) :
    Option String :=
  match lookupJ fields k with
  | some (.str s) => some s
  | _ => none

def addReport (st : ClientState) (msg : String) : ClientState :=
  { st with reports := st.reports ++ [msg] }

def reportAndFlag (st : ClientState) (msg : String) : ClientState :=
  { st with errorReported := true, reports := st.reports ++ [msg] }

/-- `_safe_ellipsis` on a string. -/
def safeEllipsis (s : String) (limit : Nat) : String :=
  if s.length > limit then s.take (limit - 3) ++ "..." else s

/-- The `index` extracted for every event by
`_get_single_json_integer_field_safe`: honored when the `index` field is
a JSON number (Python's `isinstance(result, int)`). -/
def indexOf (fields : List (String × JVal)) : Option Int :=
  match lookupJ fields "index" with
  | some (.num n) => some n
  | _ => none

/-- The `done` arm: report "no text" when nothing was accumulated, no
error was reported, and no tools were passed; then return. -/
def doneStep (tools : Bool) (st : ClientState) : StepOut :=
  if st.chunks.isEmpty && !st.errorReported && !tools then
    ⟨addReport st "Bot returned no text in response", [], .halt⟩
  else ⟨st, [], .halt⟩

/-- The `text` arm: extract the `text` field, append it to `chunks`, and
yield it. -/
def textStep (st : ClientState) (fields : List (String × JVal))
    (index : Option Int) : StepOut :=
  match getStrField fields "text" with
  | .missing => ⟨st, [], .raised .keyError⟩
  | .notStr =>
      ⟨addReport st
        "Expected string in \x27text\x27 field for \x27text\x27 event",
       [], .raised .botErrorNoRetry⟩
  | .found s =>
      ⟨{ st with chunks := st.chunks ++ [s] },
       [.partialResponse s false false none none index], .next⟩

/-- The `replace_response` arm: extract the `text` field, clear `chunks`,
then (at the shared tail of the loop) append it and yield with
`is_replace_response=True`. -/
def replaceResponseStep (st : ClientState) (fields : List (String × JVal))
    (index : Option Int) : StepOut :=
  match getStrField fields "text" with
  | .missing => ⟨st, [], .raised .keyError⟩
  | .notStr =>
      ⟨addReport st
        "Expected string in \x27text\x27 field for \x27replace_response\x27 event",
       [], .raised .botErrorNoRetry⟩
  | .found s =>
      ⟨{ st with chunks := [s] },
       [.partialResponse s false true none none index], .next⟩

/-- The `file` arm: extract `url`, `content_type`, `name` (strict) and
`inline_ref` (safe) and yield an attachment-only message. -/
def fileStep (st : ClientState) (fields : List (String × JVal))
    (index : Option Int) : StepOut :=
  match getStrField fields "url" with
  | .missing => ⟨st, [], .raised .keyError⟩
  | .notStr =>
      ⟨addReport st
        "Expected string in \x27url\x27 field for \x27file\x27 event",
       [], .raised .botErrorNoRetry⟩
  | .found u =>
      match getStrField fields "content_type" with
      | .missing => ⟨st, [], .raised .keyError⟩
      | .notStr =>
          ⟨addReport st
            "Expected string in \x27content_type\x27 field for \x27file\x27 event",
           [], .raised .botErrorNoRetry⟩
      | .found ct =>
          match getStrField fields "name" with
          | .missing => ⟨st, [], .raised .keyError⟩
          | .notStr =>
              ⟨addReport st
                "Expected string in \x27name\x27 field for \x27file\x27 event",
               [], .raised .botErrorNoRetry⟩
          | .found nm =>
              ⟨st,
               [.partialResponse "" false false
                  (some ⟨u, ct, nm, getStrFieldSafe fields "inline_ref", none⟩)
                  none index], .next⟩

/-- The `suggested_reply` arm: yield with `is_suggested_reply=True`; the
accumulator is untouched. -/
def suggestedReplyStep (st : ClientState) (fields : List (String × JVal))
    (index : Option Int) : StepOut :=
  match getStrField fields "text" with
  | .missing => ⟨st, [], .raised .keyError⟩
  | .notStr =>
      ⟨addReport st
        "Expected string in \x27text\x27 field for \x27suggested_reply\x27 event",
       [], .raised .botErrorNoRetry⟩
  | .found s => ⟨st, [.partialResponse s true false none none index], .next⟩

/-- The `json` arm: yield the parsed payload as `data`. -/
def jsonStep (st : ClientState) (data : JDoc) (index : Option Int) :
    StepOut :=
  ⟨st, [.partialResponse "" false false none (some data) index], .next⟩

/-- The `meta` arm: ignored unless `event_count == 1` (the state's count
has already been incremented); otherwise validate `linkify`,
`suggested_replies` and `content_type` and yield a `MetaResponse`. -/
def metaStep (st : ClientState) (fields : List (String × JVal)) : StepOut :=
  if st.eventCount ≠ 1 then ⟨st, [], .next⟩
  else
    match (lookupJ fields "linkify").getD (.bool false) with
    | .bool lb =>
        match (lookupJ fields "suggested_replies").getD (.bool false) with
        | .bool srb =>
            match (lookupJ fields "content_type").getD
                (.str "text/markdown") with
            | .str cts => ⟨st, [.metaResponse lb srb cts], .next⟩
            | _ =>
                ⟨reportAndFlag st
                  "Invalid content_type value in \x27meta\x27 event",
                 [], .next⟩
        | _ =>
            ⟨reportAndFlag st
              "Invalid suggested_replies value in \x27meta\x27 event",
             [], .next⟩
    | _ =>
        ⟨reportAndFlag st "Invalid linkify value in \x27meta\x27 event",
         [], .next⟩

/-- The `error` arm: raise `BotError` when `allow_retry` (default true) is
truthy, `BotErrorNoRetry` otherwise. -/
def errorStep (st : ClientState) (fields : List (String × JVal)) : StepOut :=
  if truthyJ ((lookupJ fields "allow_retry").getD (.bool true)) then
    ⟨st, [], .raised .botError⟩
  else ⟨st, [], .raised .botErrorNoRetry⟩

/-- The unknown-event arm: report (with truncation) and continue. -/
def unknownStep (st : ClientState) (name : String) : StepOut :=
  ⟨reportAndFlag st ("Unknown event type: " ++ safeEllipsis name 100),
   [], .next⟩

/-- One iteration of the event loop of `perform_query_request` (client.py
lines 186-317).  `tools` is the truthiness of the `tools` parameter.  The
data payload is modelled post-JSON-parse, so the invalid-JSON path of
`_load_json_dict` does not arise; its non-dict path (reached through the
`index` extraction performed for every event) reports and raises
`BotError`. -/
def stepClient (tools : Bool) (st0 : ClientState) (ev : ServerSentEvent) :
    StepOut :=
  let st := { st0 with eventCount := st0.eventCount + 1 }
  match ev.data with
  | .obj fields =>
      if ev.event = "done" then doneStep tools st
      else if ev.event = "text" then textStep st fields (indexOf fields)
      else if ev.event = "replace_response" then
        replaceResponseStep st fields (indexOf fields)
      else if ev.event = "file" then fileStep st fields (indexOf fields)
      else if ev.event = "suggested_reply" then
        suggestedReplyStep st fields (indexOf fields)
      else if ev.event = "json" then jsonStep st ev.data (indexOf fields)
      else if ev.event = "meta" then metaStep st fields
      else if ev.event = "error" then errorStep st fields
      else if ev.event = "ping" then ⟨st, [], .next⟩
      else unknownStep st ev.event
  | _ =>
      ⟨addReport st
        ("Expected JSON dict in \x27" ++ ev.event ++ "\x27 event"),
       [], .raised .botError⟩

/-- Outcome of a whole-stream run. -/
inductive ClientOutcome where
  | doneReceived : ClientOutcome
  | endedWithoutDone : ClientOutcome
  | raisedErr (e : ClientErr) : ClientOutcome
  deriving DecidableEq, Repr

/-- The event loop of `perform_query_request` over a whole event stream:
yields, final state, and outcome.  A `done` event returns (later events
are discarded); a stream that ends without `done` reports "Bot exited
without sending 'done' event". -/
def runClient (tools : Bool) (st : ClientState) :
    List ServerSentEvent → List BotMessage × ClientState × ClientOutcome
  | [] =>
      ([], addReport st "Bot exited without sending \x27done\x27 event",
       .endedWithoutDone)
  | e :: rest =>
      let so := stepClient tools st e
      match so.control with
      | .next =>
          let res := runClient tools so.state rest
          (so.yields ++ res.1, res.2)
      | .halt => (so.yields, so.state, .doneReceived)
      | .raised err => (so.yields, so.state, .raisedErr err)

/-- The initial loop state (`chunks = []`, `event_count = 0`). -/
def initClientState : ClientState := ⟨[], 0, false, []⟩

/-- `"".join(chunks)`. -/
def accumulatedText (st : ClientState) : String :=
  String.join st.chunks

/-- `get_final_response` (client.py lines 846-868), as a function of the
messages streamed back: meta messages and suggested replies are skipped,
a replace-response clears the accumulator first, every other message's
text is appended; an empty accumulator at the end raises `BotError`
(`none`). -/
def get_final_response (msgs : List BotMessage) : Option String :=
  let chunks := msgs.foldl (fun acc m =>
    match m with
    | .metaResponse .. => acc
    | .partialResponse t sugg repl _ _ _ =>
        if sugg then acc
        else (if repl then [] else acc) ++ [t]) ([] : List String)
  if chunks.isEmpty then none else some (String.join chunks)

example :
    runClient false initClientState
        [PoeBot.text_event "hi", PoeBot.done_event]
      = ([BotMessage.partialResponse "hi" false false none none none],
         ⟨["hi"], 2, false, []⟩, .doneReceived) := by decide

example :
    (runClient false initClientState
        [PoeBot.meta_event "text/markdown" false true true,
         PoeBot.text_event "a",
         PoeBot.meta_event "text/plain" false false false,
         PoeBot.done_event]).1
      = [BotMessage.metaResponse true true "text/markdown",
         BotMessage.partialResponse "a" false false none none none] := by
  decide

theorem doneStep_shape (tools : Bool) (st : ClientState) :
    (doneStep tools st).state.eventCount = st.eventCount
      ∧ (doneStep tools st).yields.length ≤ 1
      ∧ ∀ m ∈ (doneStep tools st).yields, isMetaMsg m = false := by
  unfold doneStep
  split
  all_goals simp [addReport]

theorem textStep_shape (st : ClientState) (fields : List (String × JVal))
    (idx : Option Int) :
    (textStep st fields idx).state.eventCount = st.eventCount
      ∧ (textStep st fields idx).yields.length ≤ 1
      ∧ ∀ m ∈ (textStep st fields idx).yields, isMetaMsg m = false := by
  unfold textStep
  repeat' split
  all_goals simp [addReport, isMetaMsg]

theorem replaceResponseStep_shape (st : ClientState)
    (fields : List (String × JVal)) (idx : Option Int) :
    (replaceResponseStep st fields idx).state.eventCount = st.eventCount
      ∧ (replaceResponseStep st fields idx).yields.length ≤ 1
      ∧ ∀ m ∈ (replaceResponseStep st fields idx).yields,
          isMetaMsg m = false := by
  unfold replaceResponseStep
  repeat' split
  all_goals simp [addReport, isMetaMsg]

theorem fileStep_shape (st : ClientState) (fields : List (String × JVal))
    (idx : Option Int) :
    (fileStep st fields idx).state.eventCount = st.eventCount
      ∧ (fileStep st fields idx).yields.length ≤ 1
      ∧ ∀ m ∈ (fileStep st fields idx).yields, isMetaMsg m = false := by
  unfold fileStep
  repeat' split
  all_goals simp [addReport, isMetaMsg]

theorem suggestedReplyStep_shape (st : ClientState)
    (fields : List (String × JVal)) (idx : Option Int) :
    (suggestedReplyStep st fields idx).state.eventCount = st.eventCount
      ∧ (suggestedReplyStep st fields idx).yields.length ≤ 1
      ∧ ∀ m ∈ (suggestedReplyStep st fields idx).yields,
          isMetaMsg m = false := by
  unfold suggestedReplyStep
  repeat' split
  all_goals simp [addReport, isMetaMsg]

theorem jsonStep_shape (st : ClientState) (data : JDoc) (idx : Option Int) :
    (jsonStep st data idx).state.eventCount = st.eventCount
      ∧ (jsonStep st data idx).yields.length ≤ 1
      ∧ ∀ m ∈ (jsonStep st data idx).yields, isMetaMsg m = false := by
  simp [jsonStep, isMetaMsg]

theorem metaStep_shape (st : ClientState) (fields : List (String × JVal)) :
    (metaStep st fields).state.eventCount = st.eventCount
      ∧ (metaStep st fields).yields.length ≤ 1
      ∧ ∀ _ ∈ (metaStep st fields).yields, st.eventCount = 1 := by
  unfold metaStep
  repeat' split
  all_goals simp [reportAndFlag]
  all_goals omega

theorem errorStep_shape (st : ClientState) (fields : List (String × JVal)) :
    (errorStep st fields).state.eventCount = st.eventCount
      ∧ (errorStep st fields).yields.length ≤ 1
      ∧ ∀ m ∈ (errorStep st fields).yields, isMetaMsg m = false := by
  unfold errorStep
  split
  all_goals simp

theorem unknownStep_shape (st : ClientState) (name : String) :
    (unknownStep st name).state.eventCount = st.eventCount
      ∧ (unknownStep st name).yields.length ≤ 1
      ∧ ∀ m ∈ (unknownStep st name).yields, isMetaMsg m = false := by
  simp [unknownStep, reportAndFlag]

theorem stepClient_eventCount (tools : Bool) (st : ClientState)
    (ev : ServerSentEvent) :
    (stepClient tools st ev).state.eventCount = st.eventCount + 1 := by
  rcases ev with ⟨name, data⟩
  cases data with
  | val v => rfl
  | arr xs => rfl
  | obj fields =>
      simp only [stepClient]
      repeat' split
      all_goals
        first
          | exact (doneStep_shape _ _).1
          | exact (textStep_shape _ _ _).1
          | exact (replaceResponseStep_shape _ _ _).1
          | exact (fileStep_shape _ _ _).1
          | exact (suggestedReplyStep_shape _ _ _).1
          | exact (jsonStep_shape _ _ _).1
          | exact (metaStep_shape _ _).1
          | exact (errorStep_shape _ _).1
          | exact (unknownStep_shape _ _).1
          | rfl

theorem stepClient_yields_len (tools : Bool) (st : ClientState)
    (ev : ServerSentEvent) :
    (stepClient tools st ev).yields.length ≤ 1 := by
  rcases ev with ⟨name, data⟩
  cases data with
  | val v => simp [stepClient]
  | arr xs => simp [stepClient]
  | obj fields =>
      simp only [stepClient]
      repeat' split
      all_goals
        first
          | exact (doneStep_shape _ _).2.1
          | exact (textStep_shape _ _ _).2.1
          | exact (replaceResponseStep_shape _ _ _).2.1
          | exact (fileStep_shape _ _ _).2.1
          | exact (suggestedReplyStep_shape _ _ _).2.1
          | exact (jsonStep_shape _ _ _).2.1
          | exact (metaStep_shape _ _).2.1
          | exact (errorStep_shape _ _).2.1
          | exact (unknownStep_shape _ _).2.1
          | simp

theorem stepClient_meta_yield (tools : Bool) (st : ClientState)
    (ev : ServerSentEvent) (m : BotMessage)
    (h : m ∈ (stepClient tools st ev).yields) (hm : isMetaMsg m = true) :
    ev.event = "meta" ∧ st.eventCount = 0 := by
  rcases ev with ⟨name, data⟩
  cases data with
  | val v => simp [stepClient] at h
  | arr xs => simp [stepClient] at h
  | obj fields =>
      simp only [stepClient] at h
      repeat' split at h
      all_goals
        first
          | (have hf := (doneStep_shape _ _).2.2 m h
             simp [hf] at hm)
          | (have hf := (textStep_shape _ _ _).2.2 m h
             simp [hf] at hm)
          | (have hf := (replaceResponseStep_shape _ _ _).2.2 m h
             simp [hf] at hm)
          | (have hf := (fileStep_shape _ _ _).2.2 m h
             simp [hf] at hm)
          | (have hf := (suggestedReplyStep_shape _ _ _).2.2 m h
             simp [hf] at hm)
          | (have hf := (jsonStep_shape _ _ _).2.2 m h
             simp [hf] at hm)
          | (have hf := (errorStep_shape _ _).2.2 m h
             simp [hf] at hm)
          | (have hf := (unknownStep_shape _ _).2.2 m h
             simp [hf] at hm)
          | (refine ⟨by assumption, ?_⟩
             have hc := (metaStep_shape _ _).2.2 m h
             simpa using hc)
          | simp at h

theorem runClient_no_meta (tools : Bool) (events : List ServerSentEvent) :
    ∀ st : ClientState, st.eventCount ≠ 0 →
      (runClient tools st events).1.countP isMetaMsg = 0 := by
  induction events with
  | nil => intro st h; rfl
  | cons e rest ih =>
      intro st h
      have hout : ∀ m ∈ (stepClient tools st e).yields,
          isMetaMsg m = false := by
        intro m hm
        by_contra hc
        have hmeta := stepClient_meta_yield tools st e m hm
          (by simpa using hc)
        exact h hmeta.2
      have hcount0 : (stepClient tools st e).yields.countP isMetaMsg = 0 :=
        List.countP_eq_zero.mpr (fun m hm => by simp [hout m hm])
      have hst2 : (stepClient tools st e).state.eventCount ≠ 0 := by
        rw [stepClient_eventCount]
        omega
      unfold runClient
      cases hctl : (stepClient tools st e).control with
      | next =>
          simp only [hctl]
          rw [List.countP_append, hcount0,
            ih (stepClient tools st e).state hst2]
      | halt => simp only [hctl]; exact hcount0
      | raised err => simp only [hctl]; exact hcount0

/-- C7: a `meta` event yields a `MetaResponse` only when it is the first
event of the stream (`event_count == 1`): a `meta` event processed at any
later position produces no yield; over a whole run at most one
`MetaResponse` is yielded, and only when the stream's first event is a
`meta` event. -/
theorem meta_honored_only_when_first (tools : Bool) (st : ClientState)
    (ev : ServerSentEvent) (events : List ServerSentEvent) :
    (ev.event = "meta" → st.eventCount ≠ 0 →
        (stepClient tools st ev).yields = [])
    ∧ (runClient tools initClientState events).1.countP isMetaMsg ≤ 1
    ∧ (∀ m ∈ (runClient tools initClientState events).1,
        isMetaMsg m = true →
          ∃ e rest, events = e :: rest ∧ e.event = "meta") := by
  refine ⟨?_, ?_, ?_⟩
  · intro h1 h2
    rcases ev with ⟨name, data⟩
    simp only at h1
    subst h1
    have h3 : st.eventCount + 1 ≠ 1 := by omega
    cases data with
    | val v => simp [stepClient]
    | arr xs => simp [stepClient]
    | obj fields => simp [stepClient, metaStep, h3]
  · cases events with
    | nil => simp [runClient]
    | cons e rest =>
        have hstepLe : (stepClient tools initClientState e).yields.countP
            isMetaMsg ≤ 1 :=
          le_trans (List.countP_le_length _) (stepClient_yields_len _ _ _)
        have hrest : (runClient tools
            (stepClient tools initClientState e).state rest).1.countP
              isMetaMsg = 0 :=
          runClient_no_meta tools rest _
            (by rw [stepClient_eventCount]; omega)
        unfold runClient
        cases hctl : (stepClient tools initClientState e).control with
        | next =>
            simp only [hctl]
            rw [List.countP_append, hrest]
            simpa using hstepLe
        | halt => simp only [hctl]; exact hstepLe
        | raised err => simp only [hctl]; exact hstepLe
  · intro m hmem hm
    cases events with
    | nil =>
        simp [runClient] at hmem
    | cons e rest =>
        refine ⟨e, rest, rfl, ?_⟩
        have hfirst : m ∈ (stepClient tools initClientState e).yields →
            ServerSentEvent.event e = "meta" := by
          intro hin
          exact (stepClient_meta_yield tools initClientState e m hin hm).1
        have hrest0 : (runClient tools
            (stepClient tools initClientState e).state rest).1.countP
              isMetaMsg = 0 :=
          runClient_no_meta tools rest _
            (by rw [stepClient_eventCount]; omega)
        unfold runClient at hmem
        cases hctl : (stepClient tools initClientState e).control with
        | next =>
            simp only [hctl] at hmem
            rcases List.mem_append.mp hmem with h1 | h1
            · exact hfirst h1
            · exact absurd hm
                (by simpa using List.countP_eq_zero.mp hrest0 m h1)
        | halt =>
            simp only [hctl] at hmem
            exact hfirst hmem
        | raised err =>
            simp only [hctl] at hmem
            exact hfirst hmem

/-- C8: processing a `replace_response` event leaves the accumulated
chunks equal to exactly that event's text; a `text` event appends to
them; `suggested_reply` and `meta` events never change them.  In
particular a handler yielding `text("abc")`, `replace_response("XYZ")`,
`done` produces the yielded messages `"abc"` and `"XYZ"` (the second with
`is_replace_response`), final accumulated text `"XYZ"` both in the loop
state and through `get_final_response`. -/
theorem replace_response_resets_accumulator (tools : Bool)
    (st : ClientState) (fields : List (String × JVal)) (s : String)
    (ev : ServerSentEvent) :
    (lookupJ fields "text" = some (.str s) →
        (stepClient tools st ⟨"replace_response", .obj fields⟩).state.chunks
          = [s])
    ∧ (lookupJ fields "text" = some (.str s) →
        (stepClient tools st ⟨"text", .obj fields⟩).state.chunks
          = st.chunks ++ [s])
    ∧ (ev.event = "suggested_reply" ∨ ev.event = "meta" →
        (stepClient tools st ev).state.chunks = st.chunks)
    ∧ (runClient false initClientState
          (handle_query "m"
            [.yieldElem (.partialResp "abc" false false),
             .yieldElem (.partialResp "XYZ" false true)])).1
        = [.partialResponse "abc" false false none none none,
           .partialResponse "XYZ" false true none none none]
    ∧ get_final_response (runClient false initClientState
          (handle_query "m"
            [.yieldElem (.partialResp "abc" false false),
             .yieldElem (.partialResp "XYZ" false true)])).1 = some "XYZ"
    ∧ accumulatedText (runClient false initClientState
          (handle_query "m"
            [.yieldElem (.partialResp "abc" false false),
             .yieldElem (.partialResp "XYZ" false true)])).2.1 = "XYZ" := by
  refine ⟨?_, ?_, ?_, by decide, by decide, by decide⟩
  · intro h
    simp [stepClient, replaceResponseStep, getStrField, h]
  · intro h
    simp [stepClient, textStep, getStrField, h]
  · intro h
    rcases ev with ⟨name, data⟩
    simp only at h
    rcases h with h | h <;> subst h
    · cases data with
      | val v => simp [stepClient, addReport]
      | arr xs => simp [stepClient, addReport]
      | obj fields2 =>
          simp only [stepClient]
          show (suggestedReplyStep _ fields2 (indexOf fields2)).state.chunks
            = st.chunks
          unfold suggestedReplyStep
          repeat' split
          all_goals simp [addReport]
    · cases data with
      | val v => simp [stepClient, addReport]
      | arr xs => simp [stepClient, addReport]
      | obj fields2 =>
          simp only [stepClient]
          show (metaStep _ fields2).state.chunks = st.chunks
          unfold metaStep
          repeat' split
          all_goals simp [reportAndFlag]

/-- Witness for `replace_response_resets_accumulator` at concrete
inputs. -/
theorem replace_response_resets_accumulator_witness :
    lookupJ [("text", JVal.str "hi")] "text" = some (JVal.str "hi")
    ∧ (stepClient false initClientState
        ⟨"replace_response", .obj [("text", JVal.str "hi")]⟩).state.chunks
        = ["hi"]
    ∧ (stepClient false ⟨["a"], 1, false, []⟩
        ⟨"text", .obj [("text", JVal.str "hi")]⟩).state.chunks = ["a", "hi"]
    ∧ (stepClient false ⟨["a"], 1, false, []⟩
        ⟨"suggested_reply", .obj [("text", JVal.str "sr")]⟩).state.chunks
        = ["a"] :=
  ⟨rfl,
   (replace_response_resets_accumulator false initClientState
      [("text", .str "hi")] "hi" ⟨"ping", .obj []⟩).1 rfl,
   (replace_response_resets_accumulator false ⟨["a"], 1, false, []⟩
      [("text", .str "hi")] "hi" ⟨"ping", .obj []⟩).2.1 rfl,
   (replace_response_resets_accumulator false ⟨["a"], 1, false, []⟩
      [("text", .str "sr")] "sr"
      ⟨"suggested_reply", .obj [("text", JVal.str "sr")]⟩).2.2.1
     (Or.inl rfl)⟩

/-! ## Cost channel (`authorize_cost`, `capture_cost`,
`_cost_requests_inner`, base.py lines 614-719) -/

/-- The cost subsystem's exceptions.  `keyError`/`typeError`/
`attributeError` stand for the uncaught Python exceptions on malformed
result payloads. -/
inductive CostErr where
  | costRequestError (msg : String) : CostErr
  | insufficientFundError : CostErr
  | invalidParameterError (msg : String) : CostErr
  | keyError : CostErr
  | typeError : CostErr
  | attributeError : CostErr
  deriving DecidableEq, Repr

/-- The HTTP+SSE response of the cost endpoint, post-parse: status code,
reason phrase, and SSE events as (event name, parsed JSON data) pairs. -/
structure CostResponse where
  status : Nat
  reasonPhrase : String
  events : List (String × JDoc)
  deriving DecidableEq, Repr

/-- `json.loads(event.data).get("message", "")` on the error path: `.get`
on a non-dict raises (`attributeError`); a non-string message makes the
later `"".join` raise (`typeError`). -/
def costMessagePiece (d : JDoc) : Except CostErr String :=
  match d with
  | .obj fs =>
      match (lookupJ fs "message").getD (.str "") with
      | .str s => .ok s
      | _ => .error .typeError
  | _ => .error .attributeError

/-- `PoeBot._cost_requests_inner` (base.py lines 686-719), as a function
of the endpoint's response: on a non-200 status, collect the message
pieces and raise `CostRequestError` with
`"{status} {reason_phrase}: {joined pieces}"`; on 200, return whether the
first `result` event's `status` equals "success" (`False` when no
`result` event arrives). -/
def _cost_requests_inner (resp : CostResponse) : Except CostErr Bool :=
  if resp.status ≠ 200 then
    match resp.events.mapM (fun e => costMessagePiece e.2) with
    | .ok pieces =>
        .error (.costRequestError
          (toString resp.status ++ " " ++ resp.reasonPhrase ++ ": "
            ++ String.join pieces))
    | .error e => .error e
  else
    match resp.events.find? (fun e => e.1 == "result") with
    | some e =>
        match e.2 with
        | .obj fs =>
            match lookupJ fs "status" with
            | some v => .ok (v == .str "success")
            | none => .error .keyError
        | _ => .error .typeError
    | none => .ok false

/-- `PoeBot.authorize_cost` (base.py lines 650-684): require the bot's
`access_key`, then a non-empty `bot_query_id`, then run the inner request
and raise `InsufficientFundError` on a non-success result.  The URL
(`…/authorize`) and the `amounts` payload do not affect the modelled
outcome. -/
def authorize_cost (access_key : Option String) (bot_query_id : String)
    (resp : CostResponse) : Except CostErr Unit :=
  if !truthyOpt access_key then
    .error (.costRequestError
      "Please provide the bot access_key when make_app is called.")
  else if bot_query_id = "" then
    .error (.invalidParameterError
      "bot_query_id is required to make cost requests.")
  else
    match _cost_requests_inner resp with
    | .ok result => if !result then .error .insufficientFundError else .ok ()
    | .error e => .error e

/-- `PoeBot.capture_cost` (base.py lines 614-648): identical control flow
to `authorize_cost` with the `…/capture` URL. -/
def capture_cost (access_key : Option String) (bot_query_id : String)
    (resp : CostResponse) : Except CostErr Unit :=
  if !truthyOpt access_key then
    .error (.costRequestError
      "Please provide the bot access_key when make_app is called.")
  else if bot_query_id = "" then
    .error (.invalidParameterError
      "bot_query_id is required to make cost requests.")
  else
    match _cost_requests_inner resp with
    | .ok result => if !result then .error .insufficientFundError else .ok ()
    | .error e => .error e

/-- The `status` carried by the first `result` SSE event, if any. -/
def firstResultStatus (resp : CostResponse) : Option JVal :=
  (resp.events.find? (fun e => e.1 == "result")).bind
    (fun e => match e.2 with
      | .obj fs => lookupJ fs "status"
      | _ => none)

/-- C9 counterexample: with no access key configured on the bot, a cost
call with an empty `bot_query_id` raises `CostRequestError` (the access
key check comes first), not `InvalidParameter` as the claim requires. -/
theorem cost_missing_access_key_counterexample :
    authorize_cost none "" ⟨200, "OK", []⟩
        = .error (.costRequestError
            "Please provide the bot access_key when make_app is called.")
    ∧ (CostErr.costRequestError
          "Please provide the bot access_key when make_app is called.")
        ≠ (CostErr.invalidParameterError
            "bot_query_id is required to make cost requests.") := by
  exact ⟨rfl, by decide⟩

theorem inner_result_status (resp : CostResponse) (hs : resp.status = 200)
    (v : JVal) (hr : firstResultStatus resp = some v) :
    _cost_requests_inner resp = .ok (v == .str "success") := by
  unfold firstResultStatus at hr
  rw [_cost_requests_inner, if_neg (by simp [hs])]
  rcases hfind : resp.events.find? (fun e => e.1 == "result") with _ | e
  · rw [hfind] at hr
    simp at hr
  · rw [hfind] at hr
    simp only [Option.some_bind] at hr
    rw [hfind]
    show (match e.2 with
      | JDoc.obj fs =>
          match lookupJ fs "status" with
          | some w => Except.ok (w == JVal.str "success")
          | none => Except.error CostErr.keyError
      | _ => Except.error CostErr.typeError) = Except.ok (v == .str "success")
    cases hdata : e.2 with
    | obj fs =>
        rw [hdata] at hr
        simp only at hr
        show (match lookupJ fs "status" with
          | some w => Except.ok (w == JVal.str "success")
          | none => Except.error CostErr.keyError)
            = Except.ok (v == JVal.str "success")
        rw [hr]
    | val w => rw [hdata] at hr; simp at hr
    | arr xs => rw [hdata] at hr; simp at hr

/-- C9 (amended): provided the bot has an access key configured (without
one, both cost calls raise `CostRequestError` first), for every cost
request (`authorize_cost` or `capture_cost`): an empty `bot_query_id`
raises `InvalidParameter` regardless of the network response; a non-200
HTTP status raises `CostRequestError` with the concatenated server
message pieces; a 200 status whose first SSE `result` event carries
status "success" returns normally; and a 200 status whose first `result`
event carries any other status raises `InsufficientFundError`. -/
theorem cost_request_outcomes (ak : Option String) (bqid : String)
    (resp : CostResponse) (hak : truthyOpt ak = true) :
    (bqid = "" →
        authorize_cost ak bqid resp
            = .error (.invalidParameterError
                "bot_query_id is required to make cost requests.")
          ∧ capture_cost ak bqid resp
            = .error (.invalidParameterError
                "bot_query_id is required to make cost requests."))
    ∧ (∀ pieces, bqid ≠ "" → resp.status ≠ 200 →
        resp.events.mapM (fun e => costMessagePiece e.2)
            = Except.ok pieces →
        authorize_cost ak bqid resp
            = .error (.costRequestError
                (toString resp.status ++ " " ++ resp.reasonPhrase ++ ": "
                  ++ String.join pieces))
          ∧ capture_cost ak bqid resp
            = .error (.costRequestError
                (toString resp.status ++ " " ++ resp.reasonPhrase ++ ": "
                  ++ String.join pieces)))
    ∧ (bqid ≠ "" → resp.status = 200 →
        firstResultStatus resp = some (.str "success") →
        authorize_cost ak bqid resp = .ok ()
          ∧ capture_cost ak bqid resp = .ok ())
    ∧ (∀ v, bqid ≠ "" → resp.status = 200 →
        firstResultStatus resp = some v → v ≠ .str "success" →
        authorize_cost ak bqid resp = .error .insufficientFundError
          ∧ capture_cost ak bqid resp
            = .error .insufficientFundError) := by
  refine ⟨?_, ?_, ?_, ?_⟩
  · intro hb
    subst hb
    constructor <;> simp [authorize_cost, capture_cost, hak]
  · intro pieces hb hs hm
    have hinner : _cost_requests_inner resp
        = .error (.costRequestError
            (toString resp.status ++ " " ++ resp.reasonPhrase ++ ": "
              ++ String.join pieces)) := by
      rw [_cost_requests_inner, if_pos hs, hm]
    constructor <;>
      simp [authorize_cost, capture_cost, hak, hb, hinner]
  · intro hb hs hr
    have hinner : _cost_requests_inner resp = .ok true := by
      rw [inner_result_status resp hs _ hr]
      simp
    constructor <;>
      simp [authorize_cost, capture_cost, hak, hb, hinner]
  · intro v hb hs hr hv
    have hinner : _cost_requests_inner resp = .ok false := by
      rw [inner_result_status resp hs v hr]
      simp [beq_eq_false_iff_ne.mpr hv]
    constructor <;>
      simp [authorize_cost, capture_cost, hak, hb, hinner]

/-- Witness for `cost_request_outcomes` at concrete inputs. -/
theorem cost_request_outcomes_witness :
    truthyOpt (some "k") = true
    ∧ authorize_cost (some "k") "" ⟨200, "OK", []⟩
        = .error (.invalidParameterError
            "bot_query_id is required to make cost requests.")
    ∧ authorize_cost (some "k") "q1"
        ⟨200, "OK", [("result", .obj [("status", JVal.str "success")])]⟩
        = .ok ()
    ∧ capture_cost (some "k") "q1"
        ⟨200, "OK", [("result", .obj [("status", JVal.str "funds low")])]⟩
        = .error .insufficientFundError :=
  ⟨rfl,
   ((cost_request_outcomes (some "k") "" ⟨200, "OK", []⟩ rfl).1 rfl).1,
   ((cost_request_outcomes (some "k") "q1"
      ⟨200, "OK", [("result", .obj [("status", JVal.str "success")])]⟩
      rfl).2.2.1 (by decide) rfl rfl).1,
   ((cost_request_outcomes (some "k") "q1"
      ⟨200, "OK", [("result", .obj [("status", JVal.str "funds low")])]⟩
      rfl).2.2.2 (.str "funds low") (by decide) rfl rfl (by decide)).2⟩

end FastapiPoe
